import Mathlib

/-!
# Cold Root Identity (JS reference implementation): a shallow embedding

The development embeds `js/coldroot.js` (HKDF-SHA256, epoch key derivation,
lineage events and their verification) and proves properties of it.

Conventions of the embedding:

* a Node `Buffer` / `Uint8Array` is a list of naturals (its bytes, each below 256);
* a JavaScript string is the list of its UTF-16 code units;
* a `throw` is the `error` branch of `Except JSError`;
* the collaborators living outside the repository (Node's HMAC-SHA256, the
  primitives of tweetnacl, `String.prototype.toLowerCase`) are the fields of a
  `Host` record; what the code does around them is embedded in full.
-/

namespace ColdRoot

/-! ## Bytes and strings -/

/-- Contents of a Node `Buffer` or `Uint8Array`: one natural number below 256 per byte. -/
abbrev Bytes := List Nat

/-- JavaScript string, as the list of its UTF-16 code units (naturals below 65536). -/
abbrev JSString := List Nat

/-- UTF-16 code units of one Unicode scalar value. -/
def utf16Units (c : Char) : List Nat :=
  if c.toNat < 65536 then [c.toNat]
  else [0xD800 + (c.toNat - 65536) / 1024, 0xDC00 + (c.toNat - 65536) % 1024]

/-- JavaScript string literal written as a Lean string. -/
def js (s : String) : JSString :=
  (s.toList.map utf16Units).flatten

/-- UTF-8 bytes of one code point. -/
def utf8EncodeCodePoint (cp : Nat) : Bytes :=
  if cp < 0x80 then [cp]
  else if cp < 0x800 then [0xC0 + cp / 64, 0x80 + cp % 64]
  else if cp < 0x10000 then [0xE0 + cp / 4096, 0x80 + cp / 64 % 64, 0x80 + cp % 64]
  else [0xF0 + cp / 262144, 0x80 + cp / 4096 % 64, 0x80 + cp / 64 % 64, 0x80 + cp % 64]

/-- Node's `Buffer.from(s, "utf8")`: surrogate pairs are combined, and a surrogate
that is not part of a pair is encoded as U+FFFD. -/
def utf8Encode : JSString → Bytes
  | [] => []
  | [u] =>
    if 0xD800 ≤ u ∧ u ≤ 0xDFFF then utf8EncodeCodePoint 0xFFFD else utf8EncodeCodePoint u
  | u :: v :: rest =>
    if 0xD800 ≤ u ∧ u ≤ 0xDBFF then
      if 0xDC00 ≤ v ∧ v ≤ 0xDFFF then
        utf8EncodeCodePoint (0x10000 + (u - 0xD800) * 1024 + (v - 0xDC00)) ++ utf8Encode rest
      else utf8EncodeCodePoint 0xFFFD ++ utf8Encode (v :: rest)
    else if 0xDC00 ≤ u ∧ u ≤ 0xDFFF then utf8EncodeCodePoint 0xFFFD ++ utf8Encode (v :: rest)
    else utf8EncodeCodePoint u ++ utf8Encode (v :: rest)

/-- Lowercase hexadecimal digit (as a code unit) of a value below 16. -/
def hexDigit (n : Nat) : Nat :=
  if n < 10 then 48 + n else 87 + n

/-- Node's `buf.toString("hex")`: two lowercase hexadecimal digits per byte. -/
def hexEncode (b : Bytes) : JSString :=
  (b.map (fun x => [hexDigit (x / 16), hexDigit (x % 16)])).flatten

/-- Lookup table of the decoder, indexed by a byte: the value of a hexadecimal digit
`0-9`, `A-F`, `a-f`, and `none` for any other byte. -/
def unhexByte (x : Nat) : Option Nat :=
  if 48 ≤ x ∧ x ≤ 57 then some (x - 48)
  else if 65 ≤ x ∧ x ≤ 70 then some (x - 55)
  else if 97 ≤ x ∧ x ≤ 102 then some (x - 87)
  else none

/-- Value of a code unit for the decoder: Node casts the UTF-16 code unit to 8 bits
before the table lookup, so only its low byte counts (`\u0141` reads as `A`). -/
def unhex (c : Nat) : Option Nat :=
  unhexByte (c % 256)

/-- Node's `Buffer.from(s, "hex")`: the string is read two code units at a time, each
through `unhex`, and decoding stops, without an error, at the first pair that is not
two hexadecimal digits; a trailing single code unit is dropped. -/
def hexDecode : JSString → Bytes
  | a :: b :: rest =>
    match unhex a, unhex b with
    | some x, some y => (16 * x + y) :: hexDecode rest
    | _, _ => []
  | _ => []

/-! ## Errors, collaborators, traced runs -/

/-- The exceptions the embedded code can raise. -/
inductive JSError where
  /-- `Error("hkdfSha256: length too large")` -/
  | hkdfLengthTooLarge
  /-- `Error("root seed must be 32 bytes (64 hex chars)")` -/
  | rootSeedLength
  /-- tweetnacl: `Error("bad seed size")` -/
  | badSeedSize
  /-- tweetnacl: `Error("bad secret key size")` -/
  | badSecretKeySize
  /-- tweetnacl: `Error("bad signature size")` -/
  | badSignatureSize
  /-- tweetnacl: `Error("bad public key size")` -/
  | badPublicKeySize
  /-- a `TypeError` of the runtime (value not iterable, not a function, not a string) -/
  | typeError
  deriving DecidableEq, Repr

/-- Equality of outcomes is decidable. -/
instance exceptDecEq {α : Type} [DecidableEq α] : DecidableEq (Except JSError α)
  | .ok a, .ok b =>
    if h : a = b then isTrue (by rw [h]) else isFalse (fun he => h (Except.ok.inj he))
  | .error a, .error b =>
    if h : a = b then isTrue (by rw [h]) else isFalse (fun he => h (Except.error.inj he))
  | .ok _, .error _ => isFalse (fun he => Except.noConfusion he)
  | .error _, .ok _ => isFalse (fun he => Except.noConfusion he)

/-- The collaborators outside the repository. -/
structure Host where
  /-- `crypto.createHmac("sha256", key).update(data).digest()`, arguments `key`, `data` -/
  hmacSha256 : Bytes → Bytes → Bytes
  /-- key generation of tweetnacl from a 32-byte seed: `(publicKey, secretKey)` -/
  signKeyPair : Bytes → Bytes × Bytes
  /-- detached signature of tweetnacl, arguments `msg`, `secretKey` -/
  signDetached : Bytes → Bytes → Bytes
  /-- `crypto_sign_open(..) >= 0` of tweetnacl, arguments `msg`, `sig`, `publicKey` -/
  signOpen : Bytes → Bytes → Bytes → Bool
  /-- `String.prototype.toLowerCase` -/
  toLowerCase : JSString → JSString

/-- Outcome of a call together with the log of the collaborator calls it made. -/
structure Run (κ α : Type) where
  result : Except JSError α
  calls : List κ

/-! ## HKDF-SHA256 -/

/-- Loop variables of the expand loop of `hkdfSha256`, with the HMAC calls made so far
(each recorded as `(key, data)`). -/
structure ExpandState where
  t : Bytes
  okm : Bytes
  hmacCalls : List (Bytes × Bytes)

/-- One iteration of the expand loop, for counter `i`; `Buffer.from([i])` stores `i & 255`. -/
def expandStep (h : Host) (prk info : Bytes) (st : ExpandState) (i : Nat) : ExpandState :=
  let data := st.t ++ info ++ [i % 256]
  let t := h.hmacSha256 prk data
  { t := t, okm := st.okm ++ t, hmacCalls := st.hmacCalls ++ [(prk, data)] }

/-- `Math.ceil(a / b)` for integers, `b` positive. -/
def ceilDiv (a b : Int) : Int :=
  -((-a) / b)

/-- `buf.slice(0, e)`: a negative `e` counts from the end, and the bounds are clamped. -/
def bufferSlice0 (b : Bytes) (e : Int) : Bytes :=
  if e < 0 then b.take ((b.length : Int) + e).toNat else b.take e.toNat

/-- `hkdfSha256(ikm, salt, info, length)` with its log of HMAC calls. -/
def hkdfSha256 (h : Host) (ikm salt info : Bytes) (length : Int) : Run (Bytes × Bytes) Bytes :=
  let hashLen : Int := 32
  if length > 255 * hashLen then
    { result := .error .hkdfLengthTooLarge, calls := [] }
  else
    let prk := h.hmacSha256 salt ikm
    let n := ceilDiv length hashLen
    let st := (List.range' 1 n.toNat).foldl (expandStep h prk info)
      { t := [], okm := [], hmacCalls := [(salt, ikm)] }
    { result := .ok (bufferSlice0 st.okm length), calls := st.hmacCalls }

/-- HKDF parameter of the protocol: `Buffer.from("nostr-cold-root", "utf8")`. -/
def HKDF_SALT : Bytes :=
  utf8Encode (js "nostr-cold-root")

/-! ## JavaScript values reaching the lineage code -/

/-- Primitive JavaScript value (numbers are the integer-valued ones). -/
inductive Prim where
  | undefined
  | null
  | bool (b : Bool)
  | num (n : Int)
  | str (s : JSString)
  deriving DecidableEq, Repr

/-- JavaScript truthiness of a primitive value. -/
def Prim.truthy : Prim → Bool
  | .undefined => false
  | .null => false
  | .bool b => b
  | .num n => n != 0
  | .str s => !s.isEmpty

/-- The `typeof` operator on primitives. -/
def Prim.typeof : Prim → String
  | .undefined => "undefined"
  | .null => "object"
  | .bool _ => "boolean"
  | .num _ => "number"
  | .str _ => "string"

/-- One entry of a `tags` array: either a value for which `Array.isArray` is false,
or an array of primitive values. -/
inductive Tag where
  | notArray
  | array (items : List Prim)
  deriving DecidableEq, Repr

/-- The `tags` property of an event: a primitive (`undefined` when the property is
absent), an array of entries, or an object that is not an array (not iterable). -/
inductive TagsField where
  | prim (p : Prim)
  | array (ts : List Tag)
  | object
  deriving DecidableEq, Repr

/-- The properties of an event object that the code reads or writes; a property that
is absent reads as `undefined`. -/
structure EventObj where
  kind : Prim
  pubkey : Prim
  created_at : Prim
  tags : TagsField
  content : Prim
  deriving DecidableEq, Repr

/-- The `event` argument of `verifyLineage`: a primitive value or an object. -/
inductive JSEvent where
  | prim (p : Prim)
  | object (o : EventObj)
  deriving DecidableEq, Repr

/-- `Buffer.from(v, "hex")` for a primitive `v`: a string is decoded, anything else
is rejected with a `TypeError`. -/
def bufferFromHex : Prim → Except JSError Bytes
  | .str s => .ok (hexDecode s)
  | _ => .error .typeError

/-! ## tweetnacl entry points (size checks around the primitives) -/

/-- `nacl.sign.keyPair.fromSeed(seed)`. -/
def naclKeyPairFromSeed (h : Host) (seed : Bytes) : Except JSError (Bytes × Bytes) :=
  if seed.length ≠ 32 then .error .badSeedSize else .ok (h.signKeyPair seed)

/-- `nacl.sign.detached(msg, secretKey)`. -/
def naclSignDetached (h : Host) (msg secretKey : Bytes) : Except JSError Bytes :=
  if secretKey.length ≠ 64 then .error .badSecretKeySize else .ok (h.signDetached msg secretKey)

/-- `nacl.sign.detached.verify(msg, sig, publicKey)`. -/
def naclVerifyDetached (h : Host) (msg sig publicKey : Bytes) : Except JSError Bool :=
  if sig.length ≠ 64 then .error .badSignatureSize
  else if publicKey.length ≠ 32 then .error .badPublicKeySize
  else .ok (h.signOpen msg sig publicKey)

/-! ## Core derivation -/

/-- Result object of `deriveEpochKey`. -/
structure EpochKey where
  skSeedHex : JSString
  pkHex : JSString
  secretKey : Bytes
  deriving DecidableEq, Repr

/-- `deriveEpochKey(rootSeedHex, epochLabel)`. -/
def deriveEpochKey (h : Host) (rootSeedHex epochLabel : JSString) : Except JSError EpochKey :=
  let rootSeed := hexDecode rootSeedHex
  if rootSeed.length ≠ 32 then .error .rootSeedLength
  else
    let info := utf8Encode (js "epoch:") ++ utf8Encode epochLabel
    match (hkdfSha256 h rootSeed HKDF_SALT info 32).result with
    | .error e => .error e
    | .ok childSeed =>
      match naclKeyPairFromSeed h childSeed with
      | .error e => .error e
      | .ok kp =>
        .ok { skSeedHex := hexEncode childSeed, pkHex := hexEncode kp.1, secretKey := kp.2 }

/-- Result object of `rootKeyPairFromSeedHex`. -/
structure RootKeyPair where
  pubKey : Bytes
  secretKey : Bytes
  deriving DecidableEq, Repr

/-- `rootKeyPairFromSeedHex(rootSeedHex)`. -/
def rootKeyPairFromSeedHex (h : Host) (rootSeedHex : JSString) : Except JSError RootKeyPair :=
  let rootSeed := hexDecode rootSeedHex
  if rootSeed.length ≠ 32 then .error .rootSeedLength
  else
    match naclKeyPairFromSeed h rootSeed with
    | .error e => .error e
    | .ok kp => .ok { pubKey := kp.1, secretKey := kp.2 }

/-! ## Lineage event -/

/-- `makeLineageEvent(rootSeedHex, epochPkHex, epochLabel, kind = 30001, createdAt)`;
`now` is the value `Date.now()` would return (milliseconds). -/
def makeLineageEvent (h : Host) (now : Nat) (rootSeedHex epochPkHex : JSString)
    (epochLabel kind createdAt : Prim) : Except JSError EventObj :=
  match rootKeyPairFromSeedHex h rootSeedHex with
  | .error e => .error e
  | .ok root =>
    let epochPub := hexDecode epochPkHex
    match naclSignDetached h epochPub root.secretKey with
    | .error e => .error e
    | .ok sig =>
      let ts := if createdAt = .null ∨ createdAt = .undefined then Prim.num (now / 1000) else createdAt
      .ok {
        kind := if kind = .undefined then .num 30001 else kind
        pubkey := .str (hexEncode epochPub)
        created_at := ts
        tags := .array [
          .array [.str (js "root"), .str (hexEncode root.pubKey)],
          .array [.str (js "sig"), .str (hexEncode sig)],
          .array [.str (js "epoch"), epochLabel]]
        content := .str [] }

/-- The three variables filled by `extractLineageTags`. -/
structure LineageTags where
  rootHex : Prim
  sigHex : Prim
  epochLabel : Prim
  deriving DecidableEq, Repr

/-- Body of the loop of `extractLineageTags` for one entry of `tags`. -/
def tagStep (acc : LineageTags) (tag : Tag) : LineageTags :=
  match tag with
  | .notArray => acc
  | .array items =>
    if items.length < 2 then acc
    else if items.getD 0 .undefined = .str (js "root") then
      { acc with rootHex := items.getD 1 .undefined }
    else if items.getD 0 .undefined = .str (js "sig") then
      { acc with sigHex := items.getD 1 .undefined }
    else if items.getD 0 .undefined = .str (js "epoch") then
      { acc with epochLabel := items.getD 1 .undefined }
    else acc

/-- `extractLineageTags(event)` for an event object. `event.tags || []` is iterated:
a falsy value gives no entry, a string gives its characters (none is an array), and a
truthy number, boolean or plain object is not iterable. -/
def extractLineageTags (o : EventObj) : Except JSError LineageTags :=
  let start : LineageTags := { rootHex := .null, sigHex := .null, epochLabel := .null }
  match o.tags with
  | .array ts => .ok (ts.foldl tagStep start)
  | .object => .error .typeError
  | .prim p =>
    if p.truthy then
      match p with
      | .str _ => .ok start
      | _ => .error .typeError
    else .ok start

/-! ## Verification -/

/-- `verifyLineage(rootPubkeyHex, event)` with its log of calls to
`nacl.sign.detached.verify`, each recorded as `(msg, sig, publicKey)`. For a primitive
`event` the guard `!event || typeof event !== "object"` always holds (`null` is falsy,
the other primitives are not of type `"object"`). -/
def verifyLineage (h : Host) (rootPubkeyHex : JSString) (event : JSEvent) :
    Run (Bytes × Bytes × Bytes) Bool :=
  match event with
  | .prim _ => { result := .ok false, calls := [] }
  | .object o =>
    match extractLineageTags o with
    | .error e => { result := .error e, calls := [] }
    | .ok tags =>
      if !tags.rootHex.truthy || !tags.sigHex.truthy then { result := .ok false, calls := [] }
      else
        match tags.rootHex with
        | .str rootHex =>
          if h.toLowerCase rootHex ≠ h.toLowerCase rootPubkeyHex then
            { result := .ok false, calls := [] }
          else
            match bufferFromHex o.pubkey with
            | .error e => { result := .error e, calls := [] }
            | .ok epochPub =>
              match bufferFromHex tags.sigHex with
              | .error e => { result := .error e, calls := [] }
              | .ok sig =>
                let rootPub := hexDecode rootPubkeyHex
                { result := naclVerifyDetached h epochPub sig rootPub,
                  calls := [(epochPub, sig, rootPub)] }
        | _ => { result := .error .typeError, calls := [] }

/-! ## Assumptions on the collaborators, and a small instance -/

/-- What the development assumes of the collaborators: digest, key and signature
sizes, byte range of their outputs, and correctness of the signature scheme for key
pairs generated from a 32-byte seed. -/
structure Host.Lawful (h : Host) : Prop where
  hmac_length : ∀ key data, (h.hmacSha256 key data).length = 32
  hmac_byte : ∀ key data, ∀ b ∈ h.hmacSha256 key data, b < 256
  pk_length : ∀ seed, seed.length = 32 → (h.signKeyPair seed).1.length = 32
  pk_byte : ∀ seed, ∀ b ∈ (h.signKeyPair seed).1, b < 256
  sk_length : ∀ seed, seed.length = 32 → (h.signKeyPair seed).2.length = 64
  sig_length : ∀ msg sk, (h.signDetached msg sk).length = 64
  sig_byte : ∀ msg sk, ∀ b ∈ h.signDetached msg sk, b < 256
  sign_open : ∀ seed msg, seed.length = 32 →
    h.signOpen msg (h.signDetached msg (h.signKeyPair seed).2) (h.signKeyPair seed).1 = true

/-- A 32-byte mixing function standing in for a digest in the small instance. -/
def toyDigest (key data : Bytes) : Bytes :=
  (List.range 32).map (fun i => (key.getD i 0 + 3 * data.getD i 0 + 7 * i + data.length) % 256)

/-- Lowercasing of the ASCII letters, other code units unchanged. -/
def asciiLower (s : JSString) : JSString :=
  s.map (fun c => if 65 ≤ c ∧ c ≤ 90 then c + 32 else c)

/-- A small instance of the collaborators that satisfies `Host.Lawful`: the secret key
is `seed ‖ publicKey` and a signature is accepted iff it is the one the signer makes. -/
def toyHost : Host where
  hmacSha256 := toyDigest
  signKeyPair := fun seed => (toyDigest seed [], seed ++ toyDigest seed [])
  signDetached := fun msg sk => toyDigest (sk.drop 32) msg ++ toyDigest msg (sk.drop 32)
  signOpen := fun msg sig pk => decide (sig = toyDigest pk msg ++ toyDigest msg pk)
  toLowerCase := asciiLower

/-! ## Concrete inputs -/

/-- A 64-character hexadecimal seed string (32 bytes). -/
def seedHex64 : JSString :=
  js "000102030405060708090a0b0c0d0e0f101112131415161718191a1b1c1d1e1f"

/-- The same seed followed by one more hexadecimal character (65 characters). -/
def seedHex65 : JSString :=
  seedHex64 ++ js "0"

/-- The same seed followed by two characters that are not hexadecimal (66 characters). -/
def seedHex64zz : JSString :=
  seedHex64 ++ js "zz"

/-- A 62-character hexadecimal string (31 bytes). -/
def seedHex62 : JSString :=
  js "000102030405060708090a0b0c0d0e0f101112131415161718191a1b1c1d1e"

/-- A 66-character hexadecimal string (33 bytes). -/
def seedHex66 : JSString :=
  seedHex64 ++ js "20"

/-- An epoch label. -/
def labelQ1 : JSString :=
  js "epoch-2025-Q1"

/-! ## The KDF as the specification words it -/

/-- Block `T(i)` of the expand phase as the specification defines it: `T(0)` is empty
and `T(i) = HMAC(PRK, T(i-1) ‖ info ‖ byte(i))`, the last byte having the value `i`. -/
def specT (hmac : Bytes → Bytes → Bytes) (prk info : Bytes) : Nat → Bytes
  | 0 => []
  | i + 1 => hmac prk (specT hmac prk info i ++ info ++ [i + 1])

/-- Number of blocks the specification asks for: `ceil(length / 32)`. -/
def specBlocks (length : Nat) : Nat :=
  ⌈(length : ℚ) / 32⌉₊

/-- Output of the KDF as the specification defines it: extract, then the first `length`
bytes of `T(1) ‖ T(2) ‖ … ‖ T(n)`. -/
def hkdfSpec (hmac : Bytes → Bytes → Bytes) (ikm salt info : Bytes) (length : Nat) : Bytes :=
  let prk := hmac salt ikm
  (((List.range' 1 (specBlocks length)).map (specT hmac prk info)).flatten).take length

/-! ## Vocabulary of the claims about lineage events -/

/-- The string `s` with bit `k` of its code unit at index `i` flipped. -/
def flipBit (s : JSString) (i k : Nat) : JSString :=
  s.set i (s.getD i 0 ^^^ 2 ^ k)

/-- Values of the entries of a tag list that are arrays of two or more elements whose
first element is the string `name`, in list order. -/
def tagValues (name : JSString) (ts : List Tag) : List Prim :=
  ts.filterMap (fun tag =>
    match tag with
    | .notArray => none
    | .array items =>
      if 2 ≤ items.length ∧ items.getD 0 .undefined = .str name then
        some (items.getD 1 .undefined)
      else none)

/-- An event object with the given `pubkey` and a tag list `root`, `sig`, `epoch`. -/
def lineageEvent (pubkey root sig : Prim) : EventObj :=
  { kind := .num 30001
    pubkey := pubkey
    created_at := .num 1735689600
    tags := .array [
      .array [.str (js "root"), root],
      .array [.str (js "sig"), sig],
      .array [.str (js "epoch"), .str labelQ1]]
    content := .str [] }

/-- Hexadecimal root public key of `seedHex64` in the small instance. -/
def toyRootHex : JSString :=
  hexEncode (toyHost.signKeyPair (hexDecode seedHex64)).1

/-- Hexadecimal signature by that root key, in the small instance, of the message `ab`. -/
def toySigHex : JSString :=
  hexEncode (toyHost.signDetached (hexDecode (js "ab"))
    (toyHost.signKeyPair (hexDecode seedHex64)).2)

/-- Whether an entry of a tag list is an array of two or more elements whose first
element is the string `name`: the entries the loop of `extractLineageTags` acts on. -/
def isTag (name : JSString) (tag : Tag) : Bool :=
  match tag with
  | .notArray => false
  | .array items => decide (2 ≤ items.length ∧ items.getD 0 .undefined = .str name)

/-- The tags of `lineageEvent` with `sig` before `root`, other fields changed. -/
def swappedEvent : EventObj :=
  { kind := .num 1
    pubkey := .str (js "ab")
    created_at := .num 7
    tags := .array [
      .array [.str (js "sig"), .str toySigHex],
      .array [.str (js "root"), .str toyRootHex],
      .array [.str (js "epoch"), .str labelQ1]]
    content := .str (js "x") }

/-- The tags of `lineageEvent` with three extra entries after the `root` tag: one that
is not an array, one with a single element, one with another name. -/
def paddedEvent : EventObj :=
  { kind := .num 1
    pubkey := .str (js "ab")
    created_at := .num 7
    tags := .array [
      .array [.str (js "root"), .str toyRootHex],
      .notArray, .array [.str (js "root")], .array [.str (js "e"), .num 1],
      .array [.str (js "sig"), .str toySigHex],
      .array [.str (js "epoch"), .str labelQ1]]
    content := .str (js "x") }

/-- Whether a code unit is one of the characters `0-9`, `a-f`. -/
def isLowerHexDigit (c : Nat) : Bool :=
  decide ((48 ≤ c ∧ c ≤ 57) ∨ (97 ≤ c ∧ c ≤ 102))

/-- The list without its entries that satisfy `q`, except the last of them. -/
def dropAllButLast (q : Tag → Bool) : List Tag → List Tag
  | [] => []
  | x :: xs => if q x && xs.any q then dropAllButLast q xs else x :: dropAllButLast q xs

/-- The tag list with all but the last `root` tag and all but the last `sig` tag removed. -/
def pruneTags (ts : List Tag) : List Tag :=
  dropAllButLast (isTag (js "root")) (dropAllButLast (isTag (js "sig")) ts)

/-- A signature string of 128 zeros. -/
def zeroSigHex : JSString :=
  hexEncode (List.replicate 64 0)

/-! ## Theorems: HKDF-SHA256 -/

theorem ceilDiv_32 (l : Int) : ceilDiv l 32 = (l + 31) / 32 := by
  unfold ceilDiv
  omega

theorem specBlocks_eq (n : Nat) : specBlocks n = (n + 31) / 32 := by
  unfold specBlocks
  apply le_antisymm
  · rw [Nat.ceil_le, div_le_iff₀ (by norm_num)]
    have h : n ≤ (n + 31) / 32 * 32 := by omega
    exact_mod_cast h
  · rw [Nat.div_le_iff_le_mul_add_pred (by norm_num)]
    have h := Nat.le_ceil ((n : ℚ) / 32)
    rw [div_le_iff₀ (by norm_num)] at h
    have h2 : n ≤ ⌈(n : ℚ) / 32⌉₊ * 32 := by exact_mod_cast h
    omega

/-- Invariant of the expand loop: started in a state whose `t` is `T(k)`, the loop over
the counters `k+1 … k+m` ends with `t = T(k+m)` and has appended `T(k+1) ‖ … ‖ T(k+m)`
to `okm`, as long as the counter stays below 256. -/
theorem expand_foldl (h : Host) (prk info : Bytes) (m : Nat) :
    ∀ (k : Nat) (st : ExpandState), k + m ≤ 255 → st.t = specT h.hmacSha256 prk info k →
      ((List.range' (k + 1) m).foldl (expandStep h prk info) st).t
          = specT h.hmacSha256 prk info (k + m) ∧
      ((List.range' (k + 1) m).foldl (expandStep h prk info) st).okm
          = st.okm ++ ((List.range' (k + 1) m).map (specT h.hmacSha256 prk info)).flatten := by
  induction m with
  | zero => intro k st _ ht; simp [ht]
  | succ m ih =>
    intro k st hk ht
    have hmod : (k + 1) % 256 = k + 1 := Nat.mod_eq_of_lt (by omega)
    have hstep : (expandStep h prk info st (k + 1)).t = specT h.hmacSha256 prk info (k + 1) := by
      simp [expandStep, specT, ht, hmod]
    obtain ⟨h1, h2⟩ := ih (k + 1) (expandStep h prk info st (k + 1)) (by omega) hstep
    rw [List.range'_succ, List.foldl_cons]
    refine ⟨by rw [h1]; congr 1; omega, ?_⟩
    rw [h2]
    simp [expandStep, specT, ht, hmod]

/-- Number of HMAC calls logged by the expand loop: one per counter value. -/
theorem expand_foldl_calls (h : Host) (prk info : Bytes) (l : List Nat) :
    ∀ st : ExpandState,
      (l.foldl (expandStep h prk info) st).hmacCalls.length = st.hmacCalls.length + l.length := by
  induction l with
  | nil => intro st; simp
  | cons i l ih =>
    intro st
    rw [List.foldl_cons, ih]
    simp [expandStep]
    omega

theorem specT_length (hmac : Bytes → Bytes → Bytes) (hl : ∀ k d, (hmac k d).length = 32)
    (prk info : Bytes) (i : Nat) (hi : 0 < i) : (specT hmac prk info i).length = 32 := by
  cases i with
  | zero => omega
  | succ j => simp [specT, hl]

theorem blocks_length (hmac : Bytes → Bytes → Bytes) (hl : ∀ k d, (hmac k d).length = 32)
    (prk info : Bytes) (n : Nat) :
    (((List.range' 1 n).map (specT hmac prk info)).flatten).length = 32 * n := by
  rw [List.length_flatten, List.map_map]
  have hc : ∀ x ∈ List.range' 1 n, (List.length ∘ specT hmac prk info) x = 32 := by
    intro x hx
    have : 0 < x := by
      rw [List.mem_range'_1] at hx
      omega
    simp [specT_length hmac hl prk info x this]
  rw [List.map_congr_left hc]
  simp
  omega

/-- The number of loop iterations is the number of blocks of the specification. -/
theorem iterations_eq (length : Int) (h0 : 0 ≤ length) :
    (ceilDiv length 32).toNat = specBlocks length.toNat := by
  rw [ceilDiv_32, specBlocks_eq]
  omega

/-- Unfolding of `hkdfSha256` below the length limit. -/
theorem hkdfSha256_run (h : Host) (ikm salt info : Bytes) (length : Int)
    (h1 : length ≤ 255 * 32) :
    hkdfSha256 h ikm salt info length =
      { result := .ok (bufferSlice0
          ((List.range' 1 (ceilDiv length 32).toNat).foldl
            (expandStep h (h.hmacSha256 salt ikm) info)
            { t := [], okm := [], hmacCalls := [(salt, ikm)] }).okm length),
        calls := ((List.range' 1 (ceilDiv length 32).toNat).foldl
            (expandStep h (h.hmacSha256 salt ikm) info)
            { t := [], okm := [], hmacCalls := [(salt, ikm)] }).hmacCalls } := by
  unfold hkdfSha256
  have : ¬ length > 255 * 32 := by omega
  simp only [this, if_false]

/-- Below the limit the result of `hkdfSha256` is the output the specification defines. -/
theorem hkdfSha256_result (h : Host) (ikm salt info : Bytes) (length : Int)
    (h0 : 0 ≤ length) (h1 : length ≤ 255 * 32) :
    (hkdfSha256 h ikm salt info length).result
        = .ok (hkdfSpec h.hmacSha256 ikm salt info length.toNat) := by
  have hn := iterations_eq length h0
  have hb : specBlocks length.toNat ≤ 255 := by
    rw [specBlocks_eq]
    omega
  rw [hkdfSha256_run h ikm salt info length h1, hn]
  have hinv := (expand_foldl h (h.hmacSha256 salt ikm) info (specBlocks length.toNat) 0
    { t := [], okm := [], hmacCalls := [(salt, ikm)] } (by omega) rfl).2
  simp only [Nat.zero_add, List.nil_append] at hinv
  simp only [hinv, hkdfSpec, bufferSlice0]
  have : ¬ length < 0 := by omega
  simp [this]

/-- Length of the output the specification defines, for a 32-byte digest. -/
theorem hkdfSpec_length (hmac : Bytes → Bytes → Bytes) (hl : ∀ k d, (hmac k d).length = 32)
    (ikm salt info : Bytes) (length : Nat) :
    (hkdfSpec hmac ikm salt info length).length = length := by
  have hblocks := blocks_length hmac hl (hmac salt ikm) info (specBlocks length)
  simp only [hkdfSpec, List.length_take, hblocks]
  rw [specBlocks_eq]
  omega

/-- C1: for 0 ≤ length ≤ 255*32, `hkdfSha256` returns the first `length` bytes of
`T(1) ‖ … ‖ T(n)` with `n = ceil(length/32)`, `PRK = HMAC(salt, ikm)`, `T(0)` empty and
`T(i) = HMAC(PRK, T(i-1) ‖ info ‖ byte(i))`, the counter byte having the value `i`
itself (at most 255 blocks, so it never wraps). -/
theorem hkdfSha256_refines_spec (h : Host) (ikm salt info : Bytes) (length : Int)
    (h0 : 0 ≤ length) (h1 : length ≤ 255 * 32) :
    (hkdfSha256 h ikm salt info length).result
        = .ok (hkdfSpec h.hmacSha256 ikm salt info length.toNat) ∧
      specBlocks length.toNat ≤ 255 := by
  refine ⟨hkdfSha256_result h ikm salt info length h0 h1, ?_⟩
  rw [specBlocks_eq]
  omega

/-- Witness of C1 -/
theorem hkdfSha256_refines_spec_witness :
    (0 : Int) ≤ 33 ∧ (33 : Int) ≤ 255 * 32 ∧
      (hkdfSha256 toyHost [1, 2] [3] [4] 33).result
        = .ok (hkdfSpec toyHost.hmacSha256 [1, 2] [3] [4] (33 : Int).toNat) ∧
      specBlocks (33 : Int).toNat ≤ 255 :=
  ⟨by decide, by decide, hkdfSha256_refines_spec toyHost [1, 2] [3] [4] 33 (by decide) (by decide)⟩

/-- C2: `hkdfSha256` raises the length error exactly when `length > 255*32 = 8160`,
in that case no HMAC has been computed, and for every `length ≤ 8160` it returns an
output. -/
theorem hkdfSha256_error_iff (h : Host) (ikm salt info : Bytes) (length : Int) :
    ((hkdfSha256 h ikm salt info length).result = .error .hkdfLengthTooLarge ↔ length > 8160) ∧
      (length > 8160 → (hkdfSha256 h ikm salt info length).calls = []) ∧
      (length ≤ 8160 → ∃ okm, (hkdfSha256 h ikm salt info length).result = .ok okm) := by
  by_cases hlen : length > 8160
  · have hgt : length > 255 * 32 := by omega
    have hr : hkdfSha256 h ikm salt info length
        = { result := .error .hkdfLengthTooLarge, calls := [] } := by
      unfold hkdfSha256
      simp only [hgt, if_true]
    refine ⟨⟨fun _ => hlen, fun _ => by rw [hr]⟩, fun _ => by rw [hr], fun hle => by omega⟩
  · have hle : length ≤ 255 * 32 := by omega
    have hr := hkdfSha256_run h ikm salt info length hle
    refine ⟨⟨fun he => ?_, fun hgt => absurd hgt hlen⟩, fun hgt => absurd hgt hlen,
      fun _ => ⟨_, by rw [hr]⟩⟩
    rw [hr] at he
    cases he

/-- Witness of C2 -/
theorem hkdfSha256_error_iff_witness :
    (hkdfSha256 toyHost [1] [2] [3] 8161).result = .error .hkdfLengthTooLarge ∧
      (hkdfSha256 toyHost [1] [2] [3] 8161).calls = [] ∧
      ∃ okm, (hkdfSha256 toyHost [1] [2] [3] 8160).result = .ok okm :=
  ⟨(hkdfSha256_error_iff toyHost [1] [2] [3] 8161).1.2 (by decide),
   (hkdfSha256_error_iff toyHost [1] [2] [3] 8161).2.1 (by decide),
   (hkdfSha256_error_iff toyHost [1] [2] [3] 8160).2.2 (by decide)⟩

/-- C3: for 0 ≤ length ≤ 8160 and a 32-byte digest, the output of `hkdfSha256` has
exactly `length` bytes; the loop makes `ceil(length/32)` HMAC calls after the extract
call, whose 32-byte blocks together hold at least `length` bytes; and for length 0 the
output is empty and the extract call is the only HMAC call. -/
theorem hkdfSha256_output_length (h : Host) (hl : ∀ k d, (h.hmacSha256 k d).length = 32)
    (ikm salt info : Bytes) (length : Int) (h0 : 0 ≤ length) (h1 : length ≤ 8160) :
    (∃ okm, (hkdfSha256 h ikm salt info length).result = .ok okm ∧
        (okm.length : Int) = length ∧ (length = 0 → okm = [])) ∧
      ((hkdfSha256 h ikm salt info length).calls.length : Int) = 1 + ceilDiv length 32 ∧
      length ≤ 32 * ceilDiv length 32 ∧
      (length = 0 → (hkdfSha256 h ikm salt info length).calls = [(salt, ikm)]) := by
  have hle : length ≤ 255 * 32 := by omega
  have hspec := hkdfSha256_result h ikm salt info length h0 hle
  have hceil : ceilDiv length 32 = (length + 31) / 32 := ceilDiv_32 length
  have hout : ((hkdfSpec h.hmacSha256 ikm salt info length.toNat).length : Int) = length := by
    rw [hkdfSpec_length h.hmacSha256 hl]
    omega
  refine ⟨⟨_, hspec, hout, fun hz => ?_⟩, ?_, by omega, fun hz => ?_⟩
  · apply List.eq_nil_of_length_eq_zero
    omega
  · rw [hkdfSha256_run h ikm salt info length hle, expand_foldl_calls]
    simp only [List.length_singleton, List.length_range']
    rw [hceil]
    omega
  · rw [hkdfSha256_run h ikm salt info length hle]
    subst hz
    simp [ceilDiv]

theorem toyDigest_length (key data : Bytes) : (toyDigest key data).length = 32 := by
  simp [toyDigest]

/-- Witness of C3 -/
theorem hkdfSha256_output_length_witness :
    (∃ okm, (hkdfSha256 toyHost [1] [2] [3] 33).result = .ok okm ∧
        (okm.length : Int) = 33 ∧ ((33 : Int) = 0 → okm = [])) ∧
      ((hkdfSha256 toyHost [1] [2] [3] 33).calls.length : Int) = 1 + ceilDiv 33 32 ∧
      (33 : Int) ≤ 32 * ceilDiv 33 32 ∧
      ((33 : Int) = 0 → (hkdfSha256 toyHost [1] [2] [3] 33).calls = [([2], [1])]) :=
  hkdfSha256_output_length toyHost toyDigest_length [1] [2] [3] 33 (by decide) (by decide)

/-! ## Theorems: hexadecimal encoding -/

theorem hexEncode_cons (x : Nat) (b : Bytes) :
    hexEncode (x :: b) = hexDigit (x / 16) :: hexDigit (x % 16) :: hexEncode b := by
  simp [hexEncode]

theorem unhex_hexDigit (n : Nat) (hn : n < 16) : unhex (hexDigit n) = some n := by
  have hm : hexDigit n % 256 = hexDigit n := by
    unfold hexDigit
    split_ifs <;> omega
  unfold unhex
  rw [hm]
  unfold unhexByte hexDigit
  split_ifs <;> first | omega | (congr 1; omega)

/-- Decoding the hexadecimal form of a buffer gives the buffer back. -/
theorem hexDecode_hexEncode (b : Bytes) (hb : ∀ x ∈ b, x < 256) :
    hexDecode (hexEncode b) = b := by
  induction b with
  | nil => rfl
  | cons x b ih =>
    have hx : x < 256 := hb x (List.mem_cons_self x b)
    rw [hexEncode_cons, hexDecode, unhex_hexDigit (x / 16) (by omega),
      unhex_hexDigit (x % 16) (by omega)]
    simp only
    rw [ih (fun y hy => hb y (List.mem_cons_of_mem x hy))]
    congr 1
    omega

theorem hexEncode_length (b : Bytes) : (hexEncode b).length = 2 * b.length := by
  induction b with
  | nil => rfl
  | cons x b ih =>
    rw [hexEncode_cons]
    simp only [List.length_cons, ih]
    omega

theorem unhex_lt (c x : Nat) (h : unhex c = some x) : x < 16 := by
  unfold unhex unhexByte at h
  split_ifs at h <;> (injection h with h; omega)

/-- Every byte of a decoded buffer is below 256. -/
theorem hexDecode_byte : ∀ (s : JSString), ∀ x ∈ hexDecode s, x < 256
  | [] => by simp [hexDecode]
  | [_] => by simp [hexDecode]
  | a :: b :: rest => by
    intro x hx
    rw [hexDecode] at hx
    cases ha : unhex a <;> cases hb : unhex b <;> simp [ha, hb] at hx
    rcases hx with rfl | hx
    · have := unhex_lt _ _ ha
      have := unhex_lt _ _ hb
      omega
    · exact hexDecode_byte rest x hx

/-! ## Theorems: the small instance is lawful -/

theorem toyDigest_byte (key data : Bytes) : ∀ b ∈ toyDigest key data, b < 256 := by
  intro b hb
  simp only [toyDigest, List.mem_map] at hb
  obtain ⟨i, _, rfl⟩ := hb
  exact Nat.mod_lt _ (by norm_num)

theorem toyHost_lawful : toyHost.Lawful where
  hmac_length := toyDigest_length
  hmac_byte := toyDigest_byte
  pk_length := fun seed _ => toyDigest_length seed []
  pk_byte := fun seed => toyDigest_byte seed []
  sk_length := fun seed hs => by
    show (seed ++ toyDigest seed []).length = 64
    rw [List.length_append, toyDigest_length, hs]
  sig_length := fun msg sk => by
    show (toyDigest (sk.drop 32) msg ++ toyDigest msg (sk.drop 32)).length = 64
    rw [List.length_append, toyDigest_length, toyDigest_length]
  sig_byte := fun msg sk b hb => by
    have hb2 : b ∈ toyDigest (sk.drop 32) msg ++ toyDigest msg (sk.drop 32) := hb
    rcases List.mem_append.1 hb2 with hm | hm
    · exact toyDigest_byte _ _ b hm
    · exact toyDigest_byte _ _ b hm
  sign_open := fun seed msg hs => by
    have hd : (seed ++ toyDigest seed []).drop 32 = toyDigest seed [] := by
      rw [← hs]
      exact List.drop_left seed (toyDigest seed [])
    show decide (toyDigest ((seed ++ toyDigest seed []).drop 32) msg
        ++ toyDigest msg ((seed ++ toyDigest seed []).drop 32)
      = toyDigest (toyDigest seed []) msg ++ toyDigest msg (toyDigest seed [])) = true
    rw [hd]
    simp

/-! ## Theorems: key derivation -/

/-- With a 32-byte digest the KDF asked for 32 bytes returns 32 bytes. -/
theorem hkdfSha256_32 (h : Host) (hl : ∀ k d, (h.hmacSha256 k d).length = 32)
    (ikm salt info : Bytes) :
    ∃ okm, (hkdfSha256 h ikm salt info 32).result = .ok okm ∧ okm.length = 32 := by
  exact ⟨_, hkdfSha256_result h ikm salt info 32 (by decide) (by decide),
    hkdfSpec_length h.hmacSha256 hl ikm salt info 32⟩

theorem deriveEpochKey_ok (h : Host) (rootSeedHex epochLabel : JSString) (childSeed : Bytes)
    (hs : (hexDecode rootSeedHex).length = 32)
    (hk : (hkdfSha256 h (hexDecode rootSeedHex) HKDF_SALT
      (utf8Encode (js "epoch:") ++ utf8Encode epochLabel) 32).result = .ok childSeed)
    (hc : childSeed.length = 32) :
    deriveEpochKey h rootSeedHex epochLabel = .ok
      { skSeedHex := hexEncode childSeed, pkHex := hexEncode (h.signKeyPair childSeed).1,
        secretKey := (h.signKeyPair childSeed).2 } := by
  unfold deriveEpochKey
  simp only [hs, ne_eq, not_true_eq_false, if_false, hk, naclKeyPairFromSeed, hc]

theorem HKDF_SALT_bytes :
    HKDF_SALT = [110, 111, 115, 116, 114, 45, 99, 111, 108, 100, 45, 114, 111, 111, 116] := by
  decide

theorem epoch_info_bytes : utf8Encode (js "epoch:") = [101, 112, 111, 99, 104, 58] := by
  decide

/-- C4: for a root seed string decoding to 32 bytes `S` and a label `L`, `deriveEpochKey`
returns `skSeedHex = hex(childSeed)` and `pkHex = hex(publicKey(childSeed))` where
`childSeed = hkdfSha256(S, UTF8("nostr-cold-root"), ASCII("epoch:") ‖ UTF8(L), 32)`; the
result depends on the seed string only through `S`, so equal `(S, L)` give equal keys. -/
theorem deriveEpochKey_spec (h : Host) (hl : ∀ k d, (h.hmacSha256 k d).length = 32)
    (rootSeedHex L : JSString) (hs : (hexDecode rootSeedHex).length = 32) :
    ∃ childSeed,
      (hkdfSha256 h (hexDecode rootSeedHex)
          [110, 111, 115, 116, 114, 45, 99, 111, 108, 100, 45, 114, 111, 111, 116]
          ([101, 112, 111, 99, 104, 58] ++ utf8Encode L) 32).result = .ok childSeed ∧
      deriveEpochKey h rootSeedHex L = .ok
        { skSeedHex := hexEncode childSeed, pkHex := hexEncode (h.signKeyPair childSeed).1,
          secretKey := (h.signKeyPair childSeed).2 } ∧
      ∀ rootSeedHex2, hexDecode rootSeedHex2 = hexDecode rootSeedHex →
        deriveEpochKey h rootSeedHex2 L = deriveEpochKey h rootSeedHex L := by
  obtain ⟨childSeed, hk, hc⟩ := hkdfSha256_32 h hl (hexDecode rootSeedHex) HKDF_SALT
    (utf8Encode (js "epoch:") ++ utf8Encode L)
  refine ⟨childSeed, ?_, deriveEpochKey_ok h rootSeedHex L childSeed hs hk hc, ?_⟩
  · rw [← HKDF_SALT_bytes, ← epoch_info_bytes]
    exact hk
  · intro rootSeedHex2 h2
    unfold deriveEpochKey
    rw [h2]

/-- Witness of C4 -/
theorem deriveEpochKey_spec_witness :
    (hexDecode seedHex64).length = 32 ∧
    ∃ childSeed,
      (hkdfSha256 toyHost (hexDecode seedHex64)
          [110, 111, 115, 116, 114, 45, 99, 111, 108, 100, 45, 114, 111, 111, 116]
          ([101, 112, 111, 99, 104, 58] ++ utf8Encode labelQ1) 32).result = .ok childSeed ∧
      deriveEpochKey toyHost seedHex64 labelQ1 = .ok
        { skSeedHex := hexEncode childSeed,
          pkHex := hexEncode (toyHost.signKeyPair childSeed).1,
          secretKey := (toyHost.signKeyPair childSeed).2 } ∧
      ∀ rootSeedHex2, hexDecode rootSeedHex2 = hexDecode seedHex64 →
        deriveEpochKey toyHost rootSeedHex2 labelQ1 = deriveEpochKey toyHost seedHex64 labelQ1 :=
  ⟨by decide, deriveEpochKey_spec toyHost toyDigest_length seedHex64 labelQ1 (by decide)⟩

theorem rootKeyPairFromSeedHex_ok (h : Host) (rootSeedHex : JSString)
    (hs : (hexDecode rootSeedHex).length = 32) :
    rootKeyPairFromSeedHex h rootSeedHex = .ok
      { pubKey := (h.signKeyPair (hexDecode rootSeedHex)).1,
        secretKey := (h.signKeyPair (hexDecode rootSeedHex)).2 } := by
  unfold rootKeyPairFromSeedHex
  simp only [hs, ne_eq, not_true_eq_false, if_false, naclKeyPairFromSeed]

/-- The event built by `makeLineageEvent` for a seed of 32 bytes. -/
theorem makeLineageEvent_ok (h : Host) (hLaw : h.Lawful) (now : Nat)
    (rootSeedHex epochPkHex : JSString) (epochLabel kind createdAt : Prim)
    (hs : (hexDecode rootSeedHex).length = 32) :
    makeLineageEvent h now rootSeedHex epochPkHex epochLabel kind createdAt = .ok
      { kind := if kind = .undefined then .num 30001 else kind
        pubkey := .str (hexEncode (hexDecode epochPkHex))
        created_at :=
          if createdAt = .null ∨ createdAt = .undefined then Prim.num (now / 1000) else createdAt
        tags := .array [
          .array [.str (js "root"), .str (hexEncode (h.signKeyPair (hexDecode rootSeedHex)).1)],
          .array [.str (js "sig"), .str (hexEncode (h.signDetached (hexDecode epochPkHex)
            (h.signKeyPair (hexDecode rootSeedHex)).2))],
          .array [.str (js "epoch"), epochLabel]]
        content := .str [] } := by
  unfold makeLineageEvent
  rw [rootKeyPairFromSeedHex_ok h rootSeedHex hs]
  simp only [naclSignDetached, hLaw.sk_length _ hs, ne_eq, not_true_eq_false, if_false]

/-- C5: `deriveEpochKey`, `rootKeyPairFromSeedHex` and `makeLineageEvent` raise the
seed-length error exactly when the root seed string decodes to a number of bytes other
than 32; then no key or event is returned, and a seed of 32 bytes is accepted by all
three. -/
theorem seed_length_error_iff (h : Host) (hLaw : h.Lawful) (now : Nat)
    (rootSeedHex L epochPkHex : JSString) (epochLabel kind createdAt : Prim) :
    (deriveEpochKey h rootSeedHex L = .error .rootSeedLength
        ↔ (hexDecode rootSeedHex).length ≠ 32) ∧
      (rootKeyPairFromSeedHex h rootSeedHex = .error .rootSeedLength
        ↔ (hexDecode rootSeedHex).length ≠ 32) ∧
      (makeLineageEvent h now rootSeedHex epochPkHex epochLabel kind createdAt
          = .error .rootSeedLength ↔ (hexDecode rootSeedHex).length ≠ 32) ∧
      ((hexDecode rootSeedHex).length = 32 →
        (∃ key, deriveEpochKey h rootSeedHex L = .ok key) ∧
        (∃ kp, rootKeyPairFromSeedHex h rootSeedHex = .ok kp) ∧
        (∃ ev, makeLineageEvent h now rootSeedHex epochPkHex epochLabel kind createdAt
          = .ok ev)) := by
  by_cases hs : (hexDecode rootSeedHex).length = 32
  · obtain ⟨childSeed, hk, hc⟩ := hkdfSha256_32 h hLaw.hmac_length (hexDecode rootSeedHex)
      HKDF_SALT (utf8Encode (js "epoch:") ++ utf8Encode L)
    have hd := deriveEpochKey_ok h rootSeedHex L childSeed hs hk hc
    have hr := rootKeyPairFromSeedHex_ok h rootSeedHex hs
    have hm := makeLineageEvent_ok h hLaw now rootSeedHex epochPkHex epochLabel kind createdAt hs
    refine ⟨⟨fun he => ?_, fun hne => absurd hs hne⟩, ⟨fun he => ?_, fun hne => absurd hs hne⟩,
      ⟨fun he => ?_, fun hne => absurd hs hne⟩, fun _ => ⟨⟨_, hd⟩, ⟨_, hr⟩, ⟨_, hm⟩⟩⟩
    · rw [hd] at he
      cases he
    · rw [hr] at he
      cases he
    · rw [hm] at he
      cases he
  · have hd : deriveEpochKey h rootSeedHex L = .error .rootSeedLength := by
      unfold deriveEpochKey
      simp only [ne_eq, hs, not_false_eq_true, if_true]
    have hr : rootKeyPairFromSeedHex h rootSeedHex = .error .rootSeedLength := by
      unfold rootKeyPairFromSeedHex
      simp only [ne_eq, hs, not_false_eq_true, if_true]
    have hm : makeLineageEvent h now rootSeedHex epochPkHex epochLabel kind createdAt
        = .error .rootSeedLength := by
      unfold makeLineageEvent
      rw [hr]
    exact ⟨⟨fun _ => hs, fun _ => hd⟩, ⟨fun _ => hs, fun _ => hr⟩, ⟨fun _ => hs, fun _ => hm⟩,
      fun h32 => absurd h32 hs⟩

/-- Witness of C5 -/
theorem seed_length_error_iff_witness :
    (hexDecode seedHex62).length = 31 ∧ (hexDecode seedHex66).length = 33 ∧
      deriveEpochKey toyHost seedHex62 labelQ1 = .error .rootSeedLength ∧
      rootKeyPairFromSeedHex toyHost seedHex66 = .error .rootSeedLength ∧
      makeLineageEvent toyHost 0 seedHex66 [] .null .undefined .undefined
        = .error .rootSeedLength ∧
      ((hexDecode seedHex64).length = 32 ∧
        ∃ ev, makeLineageEvent toyHost 0 seedHex64 [] .null .undefined .undefined = .ok ev) :=
  ⟨by decide, by decide,
   (seed_length_error_iff toyHost toyHost_lawful 0 seedHex62 labelQ1 [] .null .undefined
      .undefined).1.2 (by decide),
   (seed_length_error_iff toyHost toyHost_lawful 0 seedHex66 labelQ1 [] .null .undefined
      .undefined).2.1.2 (by decide),
   (seed_length_error_iff toyHost toyHost_lawful 0 seedHex66 labelQ1 [] .null .undefined
      .undefined).2.2.1.2 (by decide),
   by decide,
   ((seed_length_error_iff toyHost toyHost_lawful 0 seedHex64 labelQ1 [] .null .undefined
      .undefined).2.2.2 (by decide)).2.2⟩

/-- C6 (behaviour of the code): a 65-character hexadecimal seed and a 64-character
hexadecimal seed followed by `zz` both decode to 32 bytes, so `deriveEpochKey` does not
raise the seed-length error on them, whatever the collaborators are, and returns a key. -/
theorem deriveEpochKey_accepts_overlong_seed :
    seedHex65.length = 65 ∧ seedHex64zz.length = 66 ∧
      hexDecode seedHex65 = hexDecode seedHex64 ∧ hexDecode seedHex64zz = hexDecode seedHex64 ∧
      (∀ (h : Host) (L : JSString),
        deriveEpochKey h seedHex65 L ≠ .error .rootSeedLength ∧
        deriveEpochKey h seedHex64zz L ≠ .error .rootSeedLength ∧
        deriveEpochKey h seedHex65 L = deriveEpochKey h seedHex64 L ∧
        deriveEpochKey h seedHex64zz L = deriveEpochKey h seedHex64 L) ∧
      (∃ key, deriveEpochKey toyHost seedHex65 labelQ1 = .ok key) ∧
      (∃ key, deriveEpochKey toyHost seedHex64zz labelQ1 = .ok key) := by
  have h65 : hexDecode seedHex65 = hexDecode seedHex64 := by decide
  have hzz : hexDecode seedHex64zz = hexDecode seedHex64 := by decide
  have hlen : (hexDecode seedHex64).length = 32 := by decide
  have hgen : ∀ (h : Host) (L s : JSString), hexDecode s = hexDecode seedHex64 →
      deriveEpochKey h s L ≠ .error .rootSeedLength ∧
      deriveEpochKey h s L = deriveEpochKey h seedHex64 L := by
    intro h L s hsd
    have heq : deriveEpochKey h s L = deriveEpochKey h seedHex64 L := by
      unfold deriveEpochKey
      rw [hsd]
    refine ⟨fun he => ?_, heq⟩
    have hne : ¬ (hexDecode s).length ≠ 32 := by
      rw [hsd, hlen]
      simp
    unfold deriveEpochKey at he
    simp only [hne, if_false] at he
    split at he
    · next e hk =>
      rw [hkdfSha256_run h (hexDecode s) HKDF_SALT
        (utf8Encode (js "epoch:") ++ utf8Encode L) 32 (by decide)] at hk
      cases hk
    · next childSeed hk =>
      unfold naclKeyPairFromSeed at he
      split at he
      · next e2 hk2 =>
        split at hk2
        · cases hk2
          cases he
        · cases hk2
      · cases he
  refine ⟨by decide, by decide, h65, hzz, fun h L => ?_, ?_, ?_⟩
  · exact ⟨(hgen h L seedHex65 h65).1, (hgen h L seedHex64zz hzz).1,
      (hgen h L seedHex65 h65).2, (hgen h L seedHex64zz hzz).2⟩
  · obtain ⟨c, hk, hc⟩ := hkdfSha256_32 toyHost toyDigest_length (hexDecode seedHex65)
      HKDF_SALT (utf8Encode (js "epoch:") ++ utf8Encode labelQ1)
    exact ⟨_, deriveEpochKey_ok toyHost seedHex65 labelQ1 c (by rw [h65]; exact hlen) hk hc⟩
  · obtain ⟨c, hk, hc⟩ := hkdfSha256_32 toyHost toyDigest_length (hexDecode seedHex64zz)
      HKDF_SALT (utf8Encode (js "epoch:") ++ utf8Encode labelQ1)
    exact ⟨_, deriveEpochKey_ok toyHost seedHex64zz labelQ1 c (by rw [hzz]; exact hlen) hk hc⟩

/-! ## Theorems: lineage events -/

theorem str_truthy (s : JSString) (hs : s ≠ []) : (Prim.str s).truthy = true := by
  cases s with
  | nil => exact absurd rfl hs
  | cons a l => rfl

theorem truthy_ne_null (p : Prim) (hp : p.truthy = true) : p ≠ .null ∧ p ≠ .undefined := by
  cases p <;> simp [Prim.truthy] at hp ⊢

/-- The guard `!event || typeof event !== "object"` holds for every primitive value. -/
theorem prim_guard (p : Prim) : (!p.truthy || p.typeof != "object") = true := by
  cases p <;> simp [Prim.truthy, Prim.typeof]

/-- Extraction from a tag list `root`, `sig`, `epoch` (in this order). -/
theorem extract_three (kind pubkey createdAt content root sig label : Prim) :
    extractLineageTags
      { kind := kind, pubkey := pubkey, created_at := createdAt,
        tags := .array [
          .array [.str (js "root"), root],
          .array [.str (js "sig"), sig],
          .array [.str (js "epoch"), label]],
        content := content }
      = .ok { rootHex := root, sigHex := sig, epochLabel := label } := by
  have h1 : js "sig" ≠ js "root" := by decide
  have h2 : js "epoch" ≠ js "root" := by decide
  have h3 : js "epoch" ≠ js "sig" := by decide
  simp [extractLineageTags, tagStep, h1, h2, h3]

/-- Outcome of `verifyLineage` once the tags are extracted and the `root` value, the
`sig` value and `pubkey` are strings, the first two non-empty. -/
theorem verifyLineage_strings (h : Host) (R : JSString) (o : EventObj) (t : LineageTags)
    (r s p : JSString) (ht : extractLineageTags o = .ok t)
    (hr : t.rootHex = .str r) (hs : t.sigHex = .str s) (hp : o.pubkey = .str p)
    (hrne : r ≠ []) (hsne : s ≠ []) :
    verifyLineage h R (.object o) =
      if h.toLowerCase r ≠ h.toLowerCase R then { result := .ok false, calls := [] }
      else
        { result := naclVerifyDetached h (hexDecode p) (hexDecode s) (hexDecode R),
          calls := [(hexDecode p, hexDecode s, hexDecode R)] } := by
  unfold verifyLineage
  simp only [ht, hr, hs, hp, str_truthy r hrne, str_truthy s hsne, bufferFromHex,
    Bool.not_true, Bool.or_self, Bool.false_eq_true, if_false]

/-- C7: for a root seed `S` decoding to 32 bytes, any epoch key string `P`, label, kind
and timestamp, `makeLineageEvent` returns an event and `verifyLineage` accepts it for
the hexadecimal root public key of `S`. -/
theorem verifyLineage_makeLineageEvent (h : Host) (hLaw : h.Lawful) (now : Nat)
    (S P R : JSString) (L kind ts : Prim) (kp : RootKeyPair)
    (hkp : rootKeyPairFromSeedHex h S = .ok kp) (hR : R = hexEncode kp.pubKey) :
    ∃ ev, makeLineageEvent h now S P L kind ts = .ok ev ∧
      (verifyLineage h R (.object ev)).result = .ok true := by
  have hs : (hexDecode S).length = 32 := by
    by_contra hne
    unfold rootKeyPairFromSeedHex at hkp
    simp only [ne_eq, hne, not_false_eq_true, if_true] at hkp
    cases hkp
  rw [rootKeyPairFromSeedHex_ok h S hs] at hkp
  injection hkp with hkp
  subst hkp
  simp only at hR
  refine ⟨_, makeLineageEvent_ok h hLaw now S P L kind ts hs, ?_⟩
  have hpkl := hLaw.pk_length _ hs
  have hsigl := hLaw.sig_length (hexDecode P) (h.signKeyPair (hexDecode S)).2
  have hrne : hexEncode (h.signKeyPair (hexDecode S)).1 ≠ [] := by
    intro he
    have := hexEncode_length (h.signKeyPair (hexDecode S)).1
    rw [he, hpkl] at this
    cases this
  have hsne : hexEncode (h.signDetached (hexDecode P) (h.signKeyPair (hexDecode S)).2) ≠ [] := by
    intro he
    have := hexEncode_length (h.signDetached (hexDecode P) (h.signKeyPair (hexDecode S)).2)
    rw [he, hsigl] at this
    cases this
  rw [verifyLineage_strings h R _ _ _ _ _ (extract_three _ _ _ _ _ _ _) rfl rfl rfl hrne hsne]
  subst hR
  simp only [ne_eq, not_true_eq_false, if_false]
  rw [hexDecode_hexEncode _ (hLaw.pk_byte _), hexDecode_hexEncode _ (hLaw.sig_byte _ _)]
  have hmsg : hexDecode (hexEncode (hexDecode P)) = hexDecode P := by
    exact hexDecode_hexEncode _ (hexDecode_byte P)
  rw [hmsg]
  simp only [naclVerifyDetached, hsigl, hpkl, ne_eq, not_true_eq_false, if_false]
  rw [hLaw.sign_open _ _ hs]

/-- Witness of C7 -/
theorem verifyLineage_makeLineageEvent_witness :
    toyHost.Lawful ∧
      rootKeyPairFromSeedHex toyHost seedHex64 = .ok
        { pubKey := (toyHost.signKeyPair (hexDecode seedHex64)).1,
          secretKey := (toyHost.signKeyPair (hexDecode seedHex64)).2 } ∧
      ∃ ev, makeLineageEvent toyHost 0 seedHex64 (js "ab") (.str labelQ1) .undefined .undefined
          = .ok ev ∧
        (verifyLineage toyHost toyRootHex (.object ev)).result = .ok true :=
  ⟨toyHost_lawful, rootKeyPairFromSeedHex_ok toyHost seedHex64 (by decide),
   verifyLineage_makeLineageEvent toyHost toyHost_lawful 0 seedHex64 (js "ab") toyRootHex
     (.str labelQ1) .undefined .undefined _
     (rootKeyPairFromSeedHex_ok toyHost seedHex64 (by decide)) rfl⟩

/-! ## Theorems: tampering with an accepted event -/

theorem flipBit_length (s : JSString) (i k : Nat) : (flipBit s i k).length = s.length := by
  simp [flipBit]

theorem flipBit_ne_nil (s : JSString) (i k : Nat) (hs : s ≠ []) : flipBit s i k ≠ [] := by
  intro he
  have := flipBit_length s i k
  rw [he] at this
  exact hs (List.eq_nil_of_length_eq_zero this.symm)

/-- What acceptance of an event object says about its parts. -/
theorem accepted_parts (h : Host) (R : JSString) (o : EventObj) (t : LineageTags)
    (r s p : JSString) (hacc : (verifyLineage h R (.object o)).result = .ok true)
    (ht : extractLineageTags o = .ok t) (hr : t.rootHex = .str r) (hs : t.sigHex = .str s)
    (hp : o.pubkey = .str p) :
    r ≠ [] ∧ s ≠ [] ∧ h.toLowerCase r = h.toLowerCase R ∧
      naclVerifyDetached h (hexDecode p) (hexDecode s) (hexDecode R) = .ok true := by
  have hrne : r ≠ [] := by
    rintro rfl
    unfold verifyLineage at hacc
    simp [ht, hr, Prim.truthy] at hacc
  have hsne : s ≠ [] := by
    rintro rfl
    unfold verifyLineage at hacc
    simp [ht, hs, Prim.truthy] at hacc
  rw [verifyLineage_strings h R o t r s p ht hr hs hp hrne hsne] at hacc
  by_cases hl : h.toLowerCase r = h.toLowerCase R
  · simp only [hl, ne_eq, not_true_eq_false, if_false] at hacc
    exact ⟨hrne, hsne, hl, hacc⟩
  · simp only [ne_eq, hl, not_false_eq_true, if_true] at hacc
    cases hacc

/-- Result of `verifyLineage` on an event whose `root` value, `sig` value and `pubkey`
are non-empty-tag strings, as a function of these three strings. -/
theorem verifyLineage_result (h : Host) (R : JSString) (o : EventObj) (t : LineageTags)
    (r s p : JSString) (ht : extractLineageTags o = .ok t)
    (hr : t.rootHex = .str r) (hs : t.sigHex = .str s) (hp : o.pubkey = .str p)
    (hrne : r ≠ []) (hsne : s ≠ []) :
    (verifyLineage h R (.object o)).result =
      if h.toLowerCase r = h.toLowerCase R then
        naclVerifyDetached h (hexDecode p) (hexDecode s) (hexDecode R)
      else .ok false := by
  rw [verifyLineage_strings h R o t r s p ht hr hs hp hrne hsne]
  by_cases hl : h.toLowerCase r = h.toLowerCase R <;> simp [hl]

theorem xor_high_bit_mod (c k : Nat) (hk : 8 ≤ k) : (c ^^^ 2 ^ k) % 256 = c % 256 := by
  show (c ^^^ 2 ^ k) % 2 ^ 8 = c % 2 ^ 8
  apply Nat.eq_of_testBit_eq
  intro j
  simp only [Nat.testBit_mod_two_pow, Nat.testBit_xor, Nat.testBit_two_pow]
  by_cases hj : j < 8
  · have : ¬ k = j := by omega
    simp [hj, this]
  · simp [hj]

/-- The decoder only sees the low byte of each code unit. -/
theorem hexDecode_low : ∀ (s s2 : JSString),
    s.map (fun c => c % 256) = s2.map (fun c => c % 256) → hexDecode s = hexDecode s2
  | [], [], _ => rfl
  | [], _ :: _, h => by simp at h
  | _ :: _, [], h => by simp at h
  | [_], [_], _ => by simp [hexDecode]
  | [_], _ :: _ :: _, h => by simp at h
  | _ :: _ :: _, [_], h => by simp at h
  | a :: b :: rest, a2 :: b2 :: rest2, h => by
    simp only [List.map_cons, List.cons.injEq] at h
    obtain ⟨ha, hb, hrest⟩ := h
    rw [hexDecode, hexDecode, hexDecode_low rest rest2 hrest]
    simp only [unhex, ha, hb]

theorem flipBit_low (s : JSString) (i k : Nat) (hk : 8 ≤ k) :
    (flipBit s i k).map (fun c => c % 256) = s.map (fun c => c % 256) := by
  apply List.ext_getElem?
  intro n
  simp only [flipBit, List.getElem?_map, List.getElem?_set]
  by_cases hin : i = n
  · subst hin
    by_cases hlt : i < s.length
    · simp only [hlt, if_true, Option.map_some']
      rw [List.getElem?_eq_getElem hlt, Option.map_some', xor_high_bit_mod _ _ hk]
      simp [List.getD_eq_getElem?_getD, List.getElem?_eq_getElem hlt]
    · simp only [hlt, if_false, if_true, Option.map_none']
      rw [List.getElem?_eq_none (by omega)]
      rfl
  · simp only [hin, if_false]

/-- Flipping one of the bits 8 to 15 of a code unit does not change the decoded bytes. -/
theorem hexDecode_flip_high (s : JSString) (i k : Nat) (hk : 8 ≤ k) :
    hexDecode (flipBit s i k) = hexDecode s :=
  hexDecode_low _ _ (flipBit_low s i k hk)

/-- C8 (amended): take an event that `verifyLineage` accepts for the claimed root key and
flip one bit of one of its three strings. Flipping a bit of the `root` value gives
`false` unless the flipped value still equals the claimed key case-insensitively, in
which case the result stays `true`. Flipping a bit of the `sig` value or of `pubkey`
leaves the result `true` when the decoded bytes are unchanged, which is the case for
every flip of one of the bits 8 to 15 of a character; otherwise the result is the
verdict of the signature check on the newly decoded message, or on the newly decoded
signature when that still has 64 bytes. -/
theorem tamper_detection (h : Host) (R : JSString) (o o2 : EventObj) (t t2 : LineageTags)
    (r s p : JSString) (i k : Nat)
    (hacc : (verifyLineage h R (.object o)).result = .ok true)
    (ht : extractLineageTags o = .ok t) (hr : t.rootHex = .str r) (hs : t.sigHex = .str s)
    (hp : o.pubkey = .str p) (ht2 : extractLineageTags o2 = .ok t2) :
    (t2.rootHex = .str (flipBit r i k) → t2.sigHex = .str s → o2.pubkey = .str p →
        (verifyLineage h R (.object o2)).result
          = .ok (decide (h.toLowerCase (flipBit r i k) = h.toLowerCase R))) ∧
      (t2.rootHex = .str r → t2.sigHex = .str (flipBit s i k) → o2.pubkey = .str p →
        (hexDecode (flipBit s i k) = hexDecode s →
            (verifyLineage h R (.object o2)).result = .ok true) ∧
          ((hexDecode (flipBit s i k)).length = 64 →
            (verifyLineage h R (.object o2)).result
              = .ok (h.signOpen (hexDecode p) (hexDecode (flipBit s i k)) (hexDecode R)))) ∧
      (t2.rootHex = .str r → t2.sigHex = .str s → o2.pubkey = .str (flipBit p i k) →
        (verifyLineage h R (.object o2)).result
            = .ok (h.signOpen (hexDecode (flipBit p i k)) (hexDecode s) (hexDecode R)) ∧
          (hexDecode (flipBit p i k) = hexDecode p →
            (verifyLineage h R (.object o2)).result = .ok true)) ∧
      (8 ≤ k → hexDecode (flipBit s i k) = hexDecode s ∧
        hexDecode (flipBit p i k) = hexDecode p) := by
  obtain ⟨hrne, hsne, hl, hv⟩ := accepted_parts h R o t r s p hacc ht hr hs hp
  have hsizes : (hexDecode s).length = 64 ∧ (hexDecode R).length = 32 := by
    unfold naclVerifyDetached at hv
    by_cases h1 : (hexDecode s).length = 64
    · by_cases h2 : (hexDecode R).length = 32
      · exact ⟨h1, h2⟩
      · simp [h1, h2] at hv
    · simp [h1] at hv
  refine ⟨fun hr2 hs2 hp2 => ?_, fun hr2 hs2 hp2 => ?_, fun hr2 hs2 hp2 => ?_,
    fun hk => ⟨hexDecode_flip_high s i k hk, hexDecode_flip_high p i k hk⟩⟩
  · rw [verifyLineage_result h R o2 t2 _ s p ht2 hr2 hs2 hp2 (flipBit_ne_nil r i k hrne) hsne]
    by_cases hl2 : h.toLowerCase (flipBit r i k) = h.toLowerCase R
    · simp only [hl2, if_true, decide_True]
      exact hv
    · simp only [hl2, if_false, decide_False]
  · have hres := verifyLineage_result h R o2 t2 r _ p ht2 hr2 hs2 hp2 hrne
      (flipBit_ne_nil s i k hsne)
    simp only [hl, if_true] at hres
    refine ⟨fun hd => ?_, fun h64 => ?_⟩
    · rw [hres, hd]
      exact hv
    · rw [hres]
      simp [naclVerifyDetached, h64, hsizes.2]
  · have hres := verifyLineage_result h R o2 t2 r s _ ht2 hr2 hs2 hp2 hrne hsne
    simp only [hl, if_true] at hres
    have hopen : naclVerifyDetached h (hexDecode (flipBit p i k)) (hexDecode s) (hexDecode R)
        = .ok (h.signOpen (hexDecode (flipBit p i k)) (hexDecode s) (hexDecode R)) := by
      simp [naclVerifyDetached, hsizes.1, hsizes.2]
    refine ⟨by rw [hres, hopen], fun hd => ?_⟩
    rw [hres, hd]
    exact hv

/-- C8 (as stated, refuted): in the small instance the event below is accepted for the
root key `toyRootHex`, and it is still accepted after flipping bit 5 of character 40 of
the `root` value (`a` becomes `A`), after flipping bit 5 of character 5 of the `sig`
value (`f` becomes `F`), after flipping bit 5 of character 0 of `pubkey` (`ab` becomes
`Ab`), and after flipping bit 8 of character 0 of the `sig` value or of `pubkey`. -/
theorem tamper_counterexample :
    (verifyLineage toyHost toyRootHex
        (.object (lineageEvent (.str (js "ab")) (.str toyRootHex) (.str toySigHex)))).result
      = .ok true ∧
    flipBit toyRootHex 40 5 ≠ toyRootHex ∧
    (verifyLineage toyHost toyRootHex (.object
        (lineageEvent (.str (js "ab")) (.str (flipBit toyRootHex 40 5)) (.str toySigHex)))).result
      = .ok true ∧
    flipBit toySigHex 5 5 ≠ toySigHex ∧
    (verifyLineage toyHost toyRootHex (.object
        (lineageEvent (.str (js "ab")) (.str toyRootHex) (.str (flipBit toySigHex 5 5))))).result
      = .ok true ∧
    flipBit (js "ab") 0 5 = js "Ab" ∧
    (verifyLineage toyHost toyRootHex (.object
        (lineageEvent (.str (flipBit (js "ab") 0 5)) (.str toyRootHex) (.str toySigHex)))).result
      = .ok true ∧
    flipBit toySigHex 0 8 ≠ toySigHex ∧
    (verifyLineage toyHost toyRootHex (.object
        (lineageEvent (.str (js "ab")) (.str toyRootHex) (.str (flipBit toySigHex 0 8))))).result
      = .ok true ∧
    flipBit (js "ab") 0 8 = [0x161, 0x62] ∧
    (verifyLineage toyHost toyRootHex (.object
        (lineageEvent (.str (flipBit (js "ab") 0 8)) (.str toyRootHex) (.str toySigHex)))).result
      = .ok true := by
  refine ⟨?_, ?_, ?_, ?_, ?_, ?_, ?_, ?_, ?_, ?_, ?_⟩ <;> decide

/-- Witness of C8 (amended) -/
theorem tamper_detection_witness :
    (verifyLineage toyHost toyRootHex
        (.object (lineageEvent (.str (js "ab")) (.str toyRootHex) (.str toySigHex)))).result
      = .ok true ∧
    (verifyLineage toyHost toyRootHex (.object
        (lineageEvent (.str (js "ab")) (.str (flipBit toyRootHex 0 0)) (.str toySigHex)))).result
      = .ok (decide (toyHost.toLowerCase (flipBit toyRootHex 0 0)
          = toyHost.toLowerCase toyRootHex)) :=
  ⟨by decide,
   (tamper_detection toyHost toyRootHex
      (lineageEvent (.str (js "ab")) (.str toyRootHex) (.str toySigHex))
      (lineageEvent (.str (js "ab")) (.str (flipBit toyRootHex 0 0)) (.str toySigHex))
      { rootHex := .str toyRootHex, sigHex := .str toySigHex, epochLabel := .str labelQ1 }
      { rootHex := .str (flipBit toyRootHex 0 0), sigHex := .str toySigHex,
        epochLabel := .str labelQ1 }
      toyRootHex toySigHex (js "ab") 0 0 (by decide)
      (extract_three _ _ _ _ _ _ _) rfl rfl rfl (extract_three _ _ _ _ _ _ _)).1 rfl rfl rfl⟩

/-! ## Theorems: malformed events -/

theorem tagValues_cons (name : JSString) (tag : Tag) (ts : List Tag) :
    tagValues name (tag :: ts) = tagValues name [tag] ++ tagValues name ts := by
  unfold tagValues
  rw [← List.filterMap_append]
  rfl

theorem getLast_getD_append (a b : List Prim) (d : Prim) :
    ((a ++ b).getLast?).getD d = (b.getLast?).getD ((a.getLast?).getD d) := by
  rw [List.getLast?_append]
  cases b.getLast? <;> simp

theorem tagStep_rootHex (acc : LineageTags) (tag : Tag) :
    (tagStep acc tag).rootHex = ((tagValues (js "root") [tag]).getLast?).getD acc.rootHex := by
  have h1 : js "sig" ≠ js "root" := by decide
  have h2 : js "epoch" ≠ js "root" := by decide
  cases tag with
  | notArray => simp [tagStep, tagValues]
  | array items =>
    simp only [tagStep, tagValues, List.filterMap_cons, List.filterMap_nil]
    by_cases hl : items.length < 2
    · have : ¬ 2 ≤ items.length := by omega
      simp [hl, this]
    · have : 2 ≤ items.length := by omega
      simp only [hl, if_false, this, true_and]
      by_cases hr : items.getD 0 .undefined = .str (js "root")
      · rw [if_pos hr, if_pos hr]
        rfl
      · rw [if_neg hr, if_neg hr]
        split_ifs <;> rfl

theorem tagStep_sigHex (acc : LineageTags) (tag : Tag) :
    (tagStep acc tag).sigHex = ((tagValues (js "sig") [tag]).getLast?).getD acc.sigHex := by
  have h1 : js "root" ≠ js "sig" := by decide
  have h2 : js "epoch" ≠ js "sig" := by decide
  cases tag with
  | notArray => simp [tagStep, tagValues]
  | array items =>
    simp only [tagStep, tagValues, List.filterMap_cons, List.filterMap_nil]
    by_cases hl : items.length < 2
    · have : ¬ 2 ≤ items.length := by omega
      simp [hl, this]
    · have : 2 ≤ items.length := by omega
      simp only [hl, if_false, this, true_and]
      by_cases hr : items.getD 0 .undefined = .str (js "sig")
      · have hne : items.getD 0 .undefined ≠ .str (js "root") := by
          rw [hr]
          intro he
          exact h1 (Prim.str.inj he).symm
        rw [if_neg hne, if_pos hr, if_pos hr]
        rfl
      · rw [if_neg hr, if_neg hr]
        split_ifs <;> rfl

/-- The loop of `extractLineageTags` leaves in `rootHex` the value of the last entry
named `root`, and in `sigHex` the value of the last entry named `sig`. -/
theorem foldl_tagStep (ts : List Tag) :
    ∀ acc : LineageTags,
      (ts.foldl tagStep acc).rootHex
          = ((tagValues (js "root") ts).getLast?).getD acc.rootHex ∧
      (ts.foldl tagStep acc).sigHex
          = ((tagValues (js "sig") ts).getLast?).getD acc.sigHex := by
  induction ts with
  | nil => intro acc; simp [tagValues]
  | cons tag ts ih =>
    intro acc
    rw [List.foldl_cons, tagValues_cons (js "root"), tagValues_cons (js "sig"),
      getLast_getD_append, getLast_getD_append, ← tagStep_rootHex, ← tagStep_sigHex]
    exact ih (tagStep acc tag)

theorem verifyLineage_falsy (h : Host) (R : JSString) (o : EventObj) (t : LineageTags)
    (ht : extractLineageTags o = .ok t)
    (hf : t.rootHex.truthy = false ∨ t.sigHex.truthy = false) :
    verifyLineage h R (.object o) = { result := .ok false, calls := [] } := by
  unfold verifyLineage
  rcases hf with hf | hf <;> simp [ht, hf]

theorem verifyLineage_mismatch (h : Host) (R : JSString) (o : EventObj) (t : LineageTags)
    (r : JSString) (ht : extractLineageTags o = .ok t) (hr : t.rootHex = .str r)
    (hne : h.toLowerCase r ≠ h.toLowerCase R) :
    verifyLineage h R (.object o) = { result := .ok false, calls := [] } := by
  unfold verifyLineage
  simp only [ht, hr]
  split_ifs <;> rfl

theorem extract_array (o : EventObj) (ts : List Tag) (hts : o.tags = .array ts) :
    extractLineageTags o
      = .ok (ts.foldl tagStep { rootHex := .null, sigHex := .null, epochLabel := .null }) := by
  unfold extractLineageTags
  rw [hts]

theorem extract_falsy (o : EventObj) (p : Prim) (hts : o.tags = .prim p)
    (hp : p.truthy = false ∨ ∃ s, p = .str s) :
    extractLineageTags o = .ok { rootHex := .null, sigHex := .null, epochLabel := .null } := by
  unfold extractLineageTags
  rw [hts]
  rcases hp with hp | ⟨s, rfl⟩
  · simp [hp]
  · simp only
    split_ifs <;> rfl

/-- C9 (behaviour of the code): `verifyLineage` raises an exception when the `sig` value
decodes to 1 byte, when the claimed root key decodes to 1 byte, when `pubkey` is
missing, when the `root` value is a number, and when `tags` is a plain object, whereas
on an event without `tags` it returns `false`. -/
theorem verifyLineage_throws :
    (verifyLineage toyHost toyRootHex
        (.object { kind := .num 30001, pubkey := .str (js "ab"), created_at := .num 0,
                   tags := .prim .undefined, content := .str [] })).result
      = .ok false ∧
    (verifyLineage toyHost (js "ab")
        (.object (lineageEvent (.str []) (.str (js "ab")) (.str (js "cd"))))).result
      = .error .badSignatureSize ∧
    (verifyLineage toyHost (js "ab")
        (.object (lineageEvent (.str []) (.str (js "ab")) (.str toySigHex)))).result
      = .error .badPublicKeySize ∧
    (verifyLineage toyHost toyRootHex
        (.object (lineageEvent .undefined (.str toyRootHex) (.str toySigHex)))).result
      = .error .typeError ∧
    (verifyLineage toyHost toyRootHex
        (.object (lineageEvent (.str (js "ab")) (.num 5) (.str toySigHex)))).result
      = .error .typeError ∧
    (verifyLineage toyHost toyRootHex
        (.object { kind := .num 30001, pubkey := .str (js "ab"), created_at := .num 0,
                   tags := .object, content := .str [] })).result
      = .error .typeError := by
  refine ⟨?_, ?_, ?_, ?_, ?_, ?_⟩ <;> decide

/-- The inputs on which `verifyLineage` is shown to return a boolean. It returns `false`
for an event that is a primitive value
(missing, `null`, not an object). For an event object whose `tags` is falsy, a string
or a list the tags are extracted without an exception, and `verifyLineage` returns
`false` when the `root` or `sig` value is missing or falsy, returns `false` when the
`root` value is a string that differs from the claimed key case-insensitively, and
returns a boolean when `root`, `sig` and `pubkey` are strings, `sig` decodes to 64 bytes
and the claimed key to 32 bytes; that boolean is `false` when the signature check
fails. -/
theorem verifyLineage_returns_boolean (h : Host) (R : JSString) :
    (∀ p : Prim, (verifyLineage h R (.prim p)).result = .ok false) ∧
    (∀ (o : EventObj) (p : Prim), o.tags = .prim p → (p.truthy = false ∨ ∃ s, p = .str s) →
        (verifyLineage h R (.object o)).result = .ok false) ∧
    (∀ (o : EventObj) (ts : List Tag), o.tags = .array ts →
        ∃ t, extractLineageTags o = .ok t) ∧
    (∀ (o : EventObj) (t : LineageTags), extractLineageTags o = .ok t →
        ((t.rootHex.truthy = false ∨ t.sigHex.truthy = false) →
          (verifyLineage h R (.object o)).result = .ok false) ∧
        (∀ r, t.rootHex = .str r → h.toLowerCase r ≠ h.toLowerCase R →
          (verifyLineage h R (.object o)).result = .ok false) ∧
        (∀ r s p, t.rootHex = .str r → t.sigHex = .str s → o.pubkey = .str p →
          (hexDecode s).length = 64 → (hexDecode R).length = 32 →
          ∃ b, (verifyLineage h R (.object o)).result = .ok b ∧
            (h.signOpen (hexDecode p) (hexDecode s) (hexDecode R) = false → b = false))) := by
  refine ⟨fun p => rfl, fun o p hts hp => ?_, fun o ts hts => ⟨_, extract_array o ts hts⟩,
    fun o t ht => ⟨fun hf => ?_, fun r hr hne => ?_, fun r s p hr hs hp h64 h32 => ?_⟩⟩
  · rw [verifyLineage_falsy h R o _ (extract_falsy o p hts hp) (Or.inl rfl)]
  · rw [verifyLineage_falsy h R o t ht hf]
  · rw [verifyLineage_mismatch h R o t r ht hr hne]
  · by_cases hrne : r = []
    · refine ⟨false, ?_, fun _ => rfl⟩
      rw [verifyLineage_falsy h R o t ht (Or.inl (by rw [hr, hrne]; rfl))]
    · by_cases hsne : s = []
      · refine ⟨false, ?_, fun _ => rfl⟩
        rw [verifyLineage_falsy h R o t ht (Or.inr (by rw [hs, hsne]; rfl))]
      · rw [verifyLineage_result h R o t r s p ht hr hs hp hrne hsne]
        by_cases hl : h.toLowerCase r = h.toLowerCase R
        · refine ⟨h.signOpen (hexDecode p) (hexDecode s) (hexDecode R), ?_, fun hb => hb⟩
          simp [hl, naclVerifyDetached, h64, h32]
        · exact ⟨false, by simp [hl], fun _ => rfl⟩

/-- Instances of the cases of `verifyLineage_returns_boolean`. -/
theorem verifyLineage_returns_boolean_witness :
    (verifyLineage toyHost toyRootHex (.prim .null)).result = .ok false ∧
    (verifyLineage toyHost toyRootHex
        (.object { kind := .num 30001, pubkey := .str (js "ab"), created_at := .num 0,
                   tags := .prim .undefined, content := .str [] })).result = .ok false ∧
    (verifyLineage toyHost (js "ab")
        (.object (lineageEvent (.str (js "ab")) (.str toyRootHex) (.str toySigHex)))).result
      = .ok false ∧
    ∃ b, (verifyLineage toyHost toyRootHex
        (.object (lineageEvent (.str (js "cd")) (.str toyRootHex) (.str toySigHex)))).result
          = .ok b ∧
      (toyHost.signOpen (hexDecode (js "cd")) (hexDecode toySigHex) (hexDecode toyRootHex) = false
        → b = false) :=
  ⟨(verifyLineage_returns_boolean toyHost toyRootHex).1 .null,
   (verifyLineage_returns_boolean toyHost toyRootHex).2.1 _ .undefined rfl (Or.inl rfl),
   ((verifyLineage_returns_boolean toyHost (js "ab")).2.2.2
      (lineageEvent (.str (js "ab")) (.str toyRootHex) (.str toySigHex))
      { rootHex := .str toyRootHex, sigHex := .str toySigHex, epochLabel := .str labelQ1 }
      (extract_three _ _ _ _ _ _ _)).2.1 toyRootHex rfl (by decide),
   ((verifyLineage_returns_boolean toyHost toyRootHex).2.2.2
      (lineageEvent (.str (js "cd")) (.str toyRootHex) (.str toySigHex))
      { rootHex := .str toyRootHex, sigHex := .str toySigHex, epochLabel := .str labelQ1 }
      (extract_three _ _ _ _ _ _ _)).2.2 toyRootHex toySigHex (js "cd") rfl rfl rfl
      (by decide) (by decide)⟩

/-- C10: for every claimed root key, `verifyLineage` returns `false`, raises nothing and
makes no call to the signature verification when the event is a primitive value
(`null`, `undefined`, not an object), when it has no `tags` (or a falsy one), and when
its tag list has no entry of two or more elements named `root`, or none named `sig`, or
gives the `root` or `sig` entry that counts (the last one) an empty value. -/
theorem verifyLineage_missing_tags (h : Host) (R : JSString) :
    (∀ p : Prim, verifyLineage h R (.prim p) = { result := .ok false, calls := [] }) ∧
    (∀ (o : EventObj) (p : Prim), o.tags = .prim p → p.truthy = false →
        verifyLineage h R (.object o) = { result := .ok false, calls := [] }) ∧
    (∀ (o : EventObj) (ts : List Tag), o.tags = .array ts →
        (tagValues (js "root") ts = [] ∨ tagValues (js "sig") ts = [] ∨
          (tagValues (js "root") ts).getLast? = some (.str []) ∨
          (tagValues (js "sig") ts).getLast? = some (.str [])) →
        verifyLineage h R (.object o) = { result := .ok false, calls := [] }) := by
  refine ⟨fun p => rfl, fun o p hts hp => ?_, fun o ts hts hc => ?_⟩
  · exact verifyLineage_falsy h R o _ (extract_falsy o p hts (Or.inl hp)) (Or.inl rfl)
  · obtain ⟨h1, h2⟩ := foldl_tagStep ts { rootHex := .null, sigHex := .null, epochLabel := .null }
    apply verifyLineage_falsy h R o _ (extract_array o ts hts)
    rcases hc with hc | hc | hc | hc
    · left
      rw [h1, hc]
      rfl
    · right
      rw [h2, hc]
      rfl
    · left
      rw [h1, hc]
      rfl
    · right
      rw [h2, hc]
      rfl

/-- Witness of C10 -/
theorem verifyLineage_missing_tags_witness :
    verifyLineage toyHost toyRootHex
        (.object { kind := .num 30001, pubkey := .str (js "ab"), created_at := .num 0,
                   tags := .prim .undefined, content := .str [] })
      = { result := .ok false, calls := [] } ∧
    verifyLineage toyHost toyRootHex
        (.object { kind := .num 30001, pubkey := .str (js "ab"), created_at := .num 0,
                   tags := .array [.notArray, .array [.str (js "root")],
                     .array [.str (js "sig"), .str toySigHex]],
                   content := .str [] })
      = { result := .ok false, calls := [] } ∧
    verifyLineage toyHost toyRootHex
        (.object (lineageEvent (.str (js "ab")) (.str toyRootHex) (.str [])))
      = { result := .ok false, calls := [] } :=
  ⟨(verifyLineage_missing_tags toyHost toyRootHex).2.1 _ .undefined rfl rfl,
   (verifyLineage_missing_tags toyHost toyRootHex).2.2 _ _ rfl (Or.inl (by decide)),
   (verifyLineage_missing_tags toyHost toyRootHex).2.2 _ _ rfl
     (Or.inr (Or.inr (Or.inr (by decide))))⟩

/-! ## Theorems: what the verdict depends on -/

/-- For a tag list, extraction succeeds and keeps the last `root` and `sig` values. -/
theorem extract_last (o : EventObj) (ts : List Tag) (hts : o.tags = .array ts) :
    ∃ t, extractLineageTags o = .ok t ∧
      t.rootHex = ((tagValues (js "root") ts).getLast?).getD .null ∧
      t.sigHex = ((tagValues (js "sig") ts).getLast?).getD .null := by
  obtain ⟨h1, h2⟩ := foldl_tagStep ts { rootHex := .null, sigHex := .null, epochLabel := .null }
  exact ⟨_, extract_array o ts hts, h1, h2⟩

/-- The run of `verifyLineage` on an event object is determined by the extracted `root`
and `sig` values and by `pubkey`. -/
theorem verifyLineage_congr (h : Host) (R : JSString) (o o2 : EventObj) (t t2 : LineageTags)
    (ht : extractLineageTags o = .ok t) (ht2 : extractLineageTags o2 = .ok t2)
    (hr : t2.rootHex = t.rootHex) (hs : t2.sigHex = t.sigHex) (hp : o2.pubkey = o.pubkey) :
    verifyLineage h R (.object o2) = verifyLineage h R (.object o) := by
  unfold verifyLineage
  simp only [ht, ht2, hr, hs, hp]

/-- When the `root` value of an event (the value of its last `root` tag) is a
string that is not equal to the claimed root key after lowercasing both,
`verifyLineage` returns `false` without calling the signature verification, whatever
the `sig` tag, `pubkey` and the other fields are. -/
theorem verifyLineage_root_mismatch (h : Host) (R : JSString) (o : EventObj) (ts : List Tag)
    (r : JSString) (hts : o.tags = .array ts)
    (hroot : (tagValues (js "root") ts).getLast? = some (.str r))
    (hne : h.toLowerCase r ≠ h.toLowerCase R) :
    verifyLineage h R (.object o) = { result := .ok false, calls := [] } := by
  obtain ⟨t, ht, hr, _⟩ := extract_last o ts hts
  rw [hroot] at hr
  exact verifyLineage_mismatch h R o t r ht hr hne

/-- An instance of `verifyLineage_root_mismatch`. -/
theorem verifyLineage_root_mismatch_witness :
    (tagValues (js "root") [.array [.str (js "root"), .str (js "00")],
        .array [.str (js "sig"), .str toySigHex]]).getLast? = some (.str (js "00")) ∧
      toyHost.toLowerCase (js "00") ≠ toyHost.toLowerCase toyRootHex ∧
      verifyLineage toyHost toyRootHex
        (.object { kind := .num 30001, pubkey := .str (js "ab"), created_at := .num 0,
                   tags := .array [.array [.str (js "root"), .str (js "00")],
                     .array [.str (js "sig"), .str toySigHex]],
                   content := .str [] })
        = { result := .ok false, calls := [] } :=
  ⟨by decide, by decide,
   verifyLineage_root_mismatch toyHost toyRootHex _ _ (js "00") rfl (by decide) (by decide)⟩

/-- C11 (behaviour of the code): for an event whose `root` tag has the number 5 as value,
which is not equal to the claimed root key, `verifyLineage` raises a `TypeError`
(`rootHex.toLowerCase` is not a function), whereas for the string `00` as value, also
not equal to the claimed key, it returns `false`. -/
theorem verifyLineage_root_number_throws :
    (verifyLineage toyHost toyRootHex
        (.object (lineageEvent (.str (js "ab")) (.num 5) (.str toySigHex)))).result
      = .error .typeError ∧
    (verifyLineage toyHost toyRootHex
        (.object (lineageEvent (.str (js "ab")) (.str (js "00")) (.str toySigHex)))).result
      = .ok false := by
  refine ⟨?_, ?_⟩ <;> decide

/-- C12 (as stated, refuted): an event whose `root` tag equals the claimed key and whose
`sig` tag has the empty string as value is answered `false` with no call to the
signature verification, whereas the detached verification of the decoded (empty)
signature raises `bad signature size`. -/
theorem verifyLineage_empty_sig :
    (tagValues (js "sig") [.array [.str (js "root"), .str toyRootHex],
        .array [.str (js "sig"), .str []]]).getLast? = some (.str []) ∧
      verifyLineage toyHost toyRootHex
        (.object { kind := .num 30001, pubkey := .str (js "ab"), created_at := .num 0,
                   tags := .array [.array [.str (js "root"), .str toyRootHex],
                     .array [.str (js "sig"), .str []]],
                   content := .str [] })
        = { result := .ok false, calls := [] } ∧
      naclVerifyDetached toyHost (hexDecode (js "ab")) (hexDecode []) (hexDecode toyRootHex)
        = .error .badSignatureSize := by
  refine ⟨by decide, ?_, by decide⟩
  exact verifyLineage_falsy toyHost toyRootHex _ _ (extract_array _ _ rfl) (Or.inr (by decide))

/-- Two event objects with tag lists that have the same last `root` value, the same last
`sig` value and the same `pubkey` get the same run of `verifyLineage`. -/
theorem verifyLineage_of_values (h : Host) (R : JSString) (o o2 : EventObj)
    (ts ts2 : List Tag) (hts : o.tags = .array ts) (hts2 : o2.tags = .array ts2)
    (hr : (tagValues (js "root") ts2).getLast? = (tagValues (js "root") ts).getLast?)
    (hs : (tagValues (js "sig") ts2).getLast? = (tagValues (js "sig") ts).getLast?)
    (hp : o2.pubkey = o.pubkey) :
    verifyLineage h R (.object o2) = verifyLineage h R (.object o) := by
  obtain ⟨t, ht, htr, hts1⟩ := extract_last o ts hts
  obtain ⟨t2, ht2, htr2, hts22⟩ := extract_last o2 ts2 hts2
  exact verifyLineage_congr h R o o2 t t2 ht ht2 (by rw [htr2, htr, hr]) (by rw [hts22, hts1, hs]) hp

/-- C12 (amended): for an event whose `root` value is a non-empty string equal to the
claimed key after lowercasing both, whose `sig` value is a non-empty string and whose
`pubkey` is a string, `verifyLineage` makes one call of the detached verification, with
message = decoded `pubkey`, signature = decoded `sig` value and public key = decoded
claimed key, and its outcome is the outcome of that call (the boolean of the signature
check when the signature has 64 bytes and the key 32); every event with the same
`root` value, `sig` value and `pubkey` gets the same run, whatever its other fields and
tags are. -/
theorem verifyLineage_eq_verify (h : Host) (R : JSString) (o : EventObj) (ts : List Tag)
    (r s p : JSString) (hts : o.tags = .array ts)
    (hroot : (tagValues (js "root") ts).getLast? = some (.str r))
    (hsig : (tagValues (js "sig") ts).getLast? = some (.str s))
    (hp : o.pubkey = .str p) (hrne : r ≠ []) (hsne : s ≠ [])
    (hl : h.toLowerCase r = h.toLowerCase R) :
    verifyLineage h R (.object o) =
        { result := naclVerifyDetached h (hexDecode p) (hexDecode s) (hexDecode R),
          calls := [(hexDecode p, hexDecode s, hexDecode R)] } ∧
      (∀ (o2 : EventObj) (ts2 : List Tag), o2.tags = .array ts2 →
        (tagValues (js "root") ts2).getLast? = some (.str r) →
        (tagValues (js "sig") ts2).getLast? = some (.str s) →
        o2.pubkey = .str p →
        verifyLineage h R (.object o2) = verifyLineage h R (.object o)) ∧
      ((hexDecode s).length = 64 → (hexDecode R).length = 32 →
        (verifyLineage h R (.object o)).result
          = .ok (h.signOpen (hexDecode p) (hexDecode s) (hexDecode R))) := by
  obtain ⟨t, ht, htr, hts1⟩ := extract_last o ts hts
  rw [hroot] at htr
  rw [hsig] at hts1
  have hrun : verifyLineage h R (.object o) =
      { result := naclVerifyDetached h (hexDecode p) (hexDecode s) (hexDecode R),
        calls := [(hexDecode p, hexDecode s, hexDecode R)] } := by
    rw [verifyLineage_strings h R o t r s p ht htr hts1 hp hrne hsne]
    simp [hl]
  refine ⟨hrun, fun o2 ts2 hts2 hr2 hs2 hp2 => ?_, fun h64 h32 => ?_⟩
  · exact verifyLineage_of_values h R o o2 ts ts2 hts hts2 (by rw [hr2, hroot])
      (by rw [hs2, hsig]) (by rw [hp2, hp])
  · rw [hrun]
    simp [naclVerifyDetached, h64, h32]

/-- Witness of C12 (amended) -/
theorem verifyLineage_eq_verify_witness :
    verifyLineage toyHost toyRootHex
        (.object (lineageEvent (.str (js "ab")) (.str toyRootHex) (.str toySigHex))) =
      { result := naclVerifyDetached toyHost (hexDecode (js "ab")) (hexDecode toySigHex)
          (hexDecode toyRootHex),
        calls := [(hexDecode (js "ab"), hexDecode toySigHex, hexDecode toyRootHex)] } :=
  (verifyLineage_eq_verify toyHost toyRootHex
    (lineageEvent (.str (js "ab")) (.str toyRootHex) (.str toySigHex)) _
    toyRootHex toySigHex (js "ab") rfl (by decide) (by decide) rfl (by decide) (by decide)
    rfl).1

/-! ## Theorems: order of the tags and extra tags -/

theorem tagValues_single_length (name : JSString) (tag : Tag) :
    (tagValues name [tag]).length = if isTag name tag then 1 else 0 := by
  cases tag with
  | notArray => simp [tagValues, isTag]
  | array items =>
    by_cases hc : 2 ≤ items.length ∧ items.getD 0 .undefined = .str name
    · simp only [tagValues, List.filterMap_cons, List.filterMap_nil, isTag]
      rw [if_pos hc, if_pos (decide_eq_true hc)]
      rfl
    · simp only [tagValues, List.filterMap_cons, List.filterMap_nil, isTag]
      rw [if_neg hc, if_neg (by rw [decide_eq_true_eq]; exact hc)]
      rfl

theorem tagValues_length (name : JSString) (ts : List Tag) :
    (tagValues name ts).length = ts.countP (isTag name) := by
  induction ts with
  | nil => simp [tagValues]
  | cons tag ts ih =>
    rw [tagValues_cons, List.length_append, ih, tagValues_single_length, List.countP_cons]
    omega

theorem tagValues_single_nil (name : JSString) (tag : Tag) (hx : isTag name tag = false) :
    tagValues name [tag] = [] := by
  apply List.eq_nil_of_length_eq_zero
  rw [tagValues_single_length, hx]
  simp

/-- Entries that are not `name` tags contribute nothing to the values of `name`. -/
theorem tagValues_filter (name : JSString) (q : Tag → Bool)
    (hq : ∀ x, isTag name x = true → q x = true) (ts : List Tag) :
    tagValues name (ts.filter q) = tagValues name ts := by
  induction ts with
  | nil => rfl
  | cons tag ts ih =>
    by_cases hqt : q tag = true
    · rw [List.filter_cons_of_pos hqt, tagValues_cons, ih, ← tagValues_cons]
    · rw [List.filter_cons_of_neg hqt, ih, tagValues_cons name tag ts]
      have hx : isTag name tag = false := by
        by_contra hne
        exact hqt (hq tag (by simpa using hne))
      rw [tagValues_single_nil name tag hx]
      rfl

theorem perm_eq_of_length_le_one (a b : List Prim) (hp : a.Perm b) (hl : b.length ≤ 1) :
    a = b := by
  match b, hl with
  | [], _ => exact hp.eq_nil
  | [x], _ => exact List.perm_singleton.1 hp

/-- With at most one `root` tag and at most one `sig` tag, the run of `verifyLineage`
only depends on the multiset of the `root` and `sig` tags of the list (and on `pubkey`). -/
theorem verifyLineage_relevant_perm (h : Host) (R : JSString) (o o2 : EventObj)
    (ts ts2 : List Tag) (hts : o.tags = .array ts) (hts2 : o2.tags = .array ts2)
    (hp : o2.pubkey = o.pubkey)
    (h1 : ts.countP (isTag (js "root")) ≤ 1) (h2 : ts.countP (isTag (js "sig")) ≤ 1)
    (hperm : (ts2.filter (fun x => isTag (js "root") x || isTag (js "sig") x)).Perm
      (ts.filter (fun x => isTag (js "root") x || isTag (js "sig") x))) :
    verifyLineage h R (.object o2) = verifyLineage h R (.object o) := by
  have key : ∀ name, (∀ x, isTag name x = true →
      (isTag (js "root") x || isTag (js "sig") x) = true) →
      ts.countP (isTag name) ≤ 1 → tagValues name ts2 = tagValues name ts := by
    intro name hq hc
    have hpm : (tagValues name
          (ts2.filter (fun x => isTag (js "root") x || isTag (js "sig") x))).Perm
        (tagValues name (ts.filter (fun x => isTag (js "root") x || isTag (js "sig") x))) :=
      List.Perm.filterMap _ hperm
    rw [tagValues_filter name _ hq ts2, tagValues_filter name _ hq ts] at hpm
    exact perm_eq_of_length_le_one _ _ hpm (by rw [tagValues_length]; exact hc)
  have hr := key (js "root") (fun x hx => by simp [hx]) h1
  have hs := key (js "sig") (fun x hx => by simp [hx]) h2
  exact verifyLineage_of_values h R o o2 ts ts2 hts hts2 (by rw [hr]) (by rw [hs]) hp

/-- C13: for an event with at most one `root` tag and at most one `sig` tag, the run of
`verifyLineage` is the same for every event with the same `pubkey` whose tag list is a
permutation of the original one, or is the original one with extra entries inserted
at some position that are neither a `root` nor a `sig` tag (entries that are not
arrays or have fewer than two elements included), or is obtained by both (its `root`
and `sig` tags are a permutation of the original ones). -/
theorem verifyLineage_tag_order (h : Host) (R : JSString) (o o2 : EventObj)
    (ts ts2 : List Tag) (hts : o.tags = .array ts) (hts2 : o2.tags = .array ts2)
    (hp : o2.pubkey = o.pubkey)
    (h1 : ts.countP (isTag (js "root")) ≤ 1) (h2 : ts.countP (isTag (js "sig")) ≤ 1) :
    (ts2.Perm ts → verifyLineage h R (.object o2) = verifyLineage h R (.object o)) ∧
    (∀ pre extras post : List Tag, ts = pre ++ post → ts2 = pre ++ extras ++ post →
        (∀ x ∈ extras, isTag (js "root") x = false ∧ isTag (js "sig") x = false) →
        verifyLineage h R (.object o2) = verifyLineage h R (.object o)) ∧
    ((ts2.filter (fun x => isTag (js "root") x || isTag (js "sig") x)).Perm
        (ts.filter (fun x => isTag (js "root") x || isTag (js "sig") x)) →
      verifyLineage h R (.object o2) = verifyLineage h R (.object o)) := by
  refine ⟨fun hperm => ?_, fun pre extras post he he2 hex => ?_, fun hperm => ?_⟩
  · exact verifyLineage_relevant_perm h R o o2 ts ts2 hts hts2 hp h1 h2 (hperm.filter _)
  · apply verifyLineage_relevant_perm h R o o2 ts ts2 hts hts2 hp h1 h2
    have hnil : extras.filter (fun x => isTag (js "root") x || isTag (js "sig") x) = [] := by
      rw [List.filter_eq_nil_iff]
      intro x hx
      simp [(hex x hx).1, (hex x hx).2]
    rw [he, he2, List.filter_append, List.filter_append, List.filter_append, hnil,
      List.append_nil]
  · exact verifyLineage_relevant_perm h R o o2 ts ts2 hts hts2 hp h1 h2 hperm

/-- Witness of C13 -/
theorem verifyLineage_tag_order_witness :
    verifyLineage toyHost toyRootHex (.object swappedEvent)
      = verifyLineage toyHost toyRootHex
        (.object (lineageEvent (.str (js "ab")) (.str toyRootHex) (.str toySigHex))) ∧
    verifyLineage toyHost toyRootHex (.object paddedEvent)
      = verifyLineage toyHost toyRootHex
        (.object (lineageEvent (.str (js "ab")) (.str toyRootHex) (.str toySigHex))) :=
  ⟨(verifyLineage_tag_order toyHost toyRootHex
      (lineageEvent (.str (js "ab")) (.str toyRootHex) (.str toySigHex)) swappedEvent
      _ _ rfl rfl rfl (by decide) (by decide)).1 (List.Perm.swap _ _ _),
   (verifyLineage_tag_order toyHost toyRootHex
      (lineageEvent (.str (js "ab")) (.str toyRootHex) (.str toySigHex)) paddedEvent
      _ _ rfl rfl rfl (by decide) (by decide)).2.1
      [.array [.str (js "root"), .str toyRootHex]]
      [.notArray, .array [.str (js "root")], .array [.str (js "e"), .num 1]]
      [.array [.str (js "sig"), .str toySigHex], .array [.str (js "epoch"), .str labelQ1]]
      rfl rfl (by decide)⟩

/-! ## Theorems: the event built by `makeLineageEvent` -/

/-- What a successful `rootKeyPairFromSeedHex` says about its argument and result. -/
theorem rootKeyPair_inv (h : Host) (S : JSString) (kp : RootKeyPair)
    (hkp : rootKeyPairFromSeedHex h S = .ok kp) :
    (hexDecode S).length = 32 ∧
      kp = { pubKey := (h.signKeyPair (hexDecode S)).1,
             secretKey := (h.signKeyPair (hexDecode S)).2 } := by
  have hs : (hexDecode S).length = 32 := by
    by_contra hne
    unfold rootKeyPairFromSeedHex at hkp
    simp only [ne_eq, hne, not_false_eq_true, if_true] at hkp
    cases hkp
  rw [rootKeyPairFromSeedHex_ok h S hs] at hkp
  injection hkp with hkp
  exact ⟨hs, hkp.symm⟩

/-- C14: for a root seed `S` of 32 bytes with root key pair `kp`, an epoch key string
`P`, a label `L` and a kind `k`, `makeLineageEvent` returns an event with `kind = k`,
`content = ""` and exactly the tags `["root", hex(kp.pubKey)]`,
`["sig", hex(sign_detached(decode(P), kp.secretKey))]`, `["epoch", L]`, in this order. -/
theorem makeLineageEvent_shape (h : Host) (hLaw : h.Lawful) (now : Nat) (S P : JSString)
    (L : Prim) (k : Int) (ts : Prim) (kp : RootKeyPair)
    (hkp : rootKeyPairFromSeedHex h S = .ok kp) :
    ∃ ev sig, makeLineageEvent h now S P L (.num k) ts = .ok ev ∧
      naclSignDetached h (hexDecode P) kp.secretKey = .ok sig ∧
      ev.kind = .num k ∧ ev.content = .str [] ∧
      ev.tags = .array [
        .array [.str (js "root"), .str (hexEncode kp.pubKey)],
        .array [.str (js "sig"), .str (hexEncode sig)],
        .array [.str (js "epoch"), L]] := by
  obtain ⟨hs, rfl⟩ := rootKeyPair_inv h S kp hkp
  refine ⟨_, h.signDetached (hexDecode P) (h.signKeyPair (hexDecode S)).2,
    makeLineageEvent_ok h hLaw now S P L (.num k) ts hs, ?_, ?_, rfl, rfl⟩
  · simp only [naclSignDetached, hLaw.sk_length _ hs, ne_eq, not_true_eq_false, if_false]
  · simp

/-- Witness of C14 -/
theorem makeLineageEvent_shape_witness :
    ∃ ev sig, makeLineageEvent toyHost 0 seedHex64 (js "ab") (.str labelQ1) (.num 30001)
          (.num 1735689600) = .ok ev ∧
      naclSignDetached toyHost (hexDecode (js "ab"))
          (toyHost.signKeyPair (hexDecode seedHex64)).2 = .ok sig ∧
      ev.kind = .num 30001 ∧ ev.content = .str [] ∧
      ev.tags = .array [
        .array [.str (js "root"), .str (hexEncode (toyHost.signKeyPair (hexDecode seedHex64)).1)],
        .array [.str (js "sig"), .str (hexEncode sig)],
        .array [.str (js "epoch"), .str labelQ1]] :=
  makeLineageEvent_shape toyHost toyHost_lawful 0 seedHex64 (js "ab") (.str labelQ1) 30001
    (.num 1735689600) _ (rootKeyPairFromSeedHex_ok toyHost seedHex64 (by decide))

/-- C15 (as stated, refuted): for the epoch key string `AB` the `pubkey` of the event is
`ab`, for `abc` it is `ab`, and for `zz` it is the empty string. -/
theorem makeLineageEvent_pubkey_differs :
    Except.map EventObj.pubkey
        (makeLineageEvent toyHost 0 seedHex64 (js "AB") (.str labelQ1) (.num 30001) (.num 0))
      = .ok (.str (js "ab")) ∧
    js "ab" ≠ js "AB" ∧
    Except.map EventObj.pubkey
        (makeLineageEvent toyHost 0 seedHex64 (js "abc") (.str labelQ1) (.num 30001) (.num 0))
      = .ok (.str (js "ab")) ∧
    Except.map EventObj.pubkey
        (makeLineageEvent toyHost 0 seedHex64 (js "zz") (.str labelQ1) (.num 30001) (.num 0))
      = .ok (.str []) := by
  refine ⟨?_, ?_, ?_, ?_⟩ <;> decide

theorem lowerHex_unhex (c : Nat) (hc : isLowerHexDigit c = true) :
    ∃ x, unhex c = some x ∧ x < 16 ∧ hexDigit x = c := by
  simp only [isLowerHexDigit, decide_eq_true_eq] at hc
  have hm : c % 256 = c := Nat.mod_eq_of_lt (by omega)
  rcases hc with hc | hc
  · refine ⟨c - 48, ?_, by omega, ?_⟩
    · unfold unhex
      rw [hm]
      unfold unhexByte
      rw [if_pos hc]
    · unfold hexDigit
      rw [if_pos (by omega)]
      omega
  · refine ⟨c - 87, ?_, by omega, ?_⟩
    · unfold unhex
      rw [hm]
      unfold unhexByte
      rw [if_neg (by omega), if_neg (by omega), if_pos hc]
    · unfold hexDigit
      rw [if_neg (by omega)]
      omega

/-- Re-encoding the decoding of an even-length string of lowercase hexadecimal digits
gives the string back. -/
theorem hexEncode_hexDecode : ∀ (P : JSString), P.length % 2 = 0 →
    (∀ c ∈ P, isLowerHexDigit c = true) → hexEncode (hexDecode P) = P
  | [], _, _ => rfl
  | [_], hlen, _ => by simp at hlen
  | a :: b :: rest, hlen, hmem => by
    obtain ⟨x, hx, hx16, hxa⟩ := lowerHex_unhex a (hmem a (by simp))
    obtain ⟨y, hy, hy16, hyb⟩ := lowerHex_unhex b (hmem b (by simp))
    have hrest := hexEncode_hexDecode rest (by simp only [List.length_cons] at hlen; omega)
      (fun c hc => hmem c (by simp [hc]))
    rw [hexDecode, hx, hy]
    simp only
    rw [hexEncode_cons, hrest]
    have h1 : (16 * x + y) / 16 = x := by omega
    have h2 : (16 * x + y) % 16 = y := by omega
    rw [h1, h2, hxa, hyb]

/-- C15 (amended): for a valid root seed the `pubkey` field of the event is the lowercase
hexadecimal encoding of the bytes the epoch key string `P` decodes to; it equals `P`
when `P` is an even-length string of the characters `0-9`, `a-f`. -/
theorem makeLineageEvent_pubkey (h : Host) (hLaw : h.Lawful) (now : Nat) (S P : JSString)
    (L kind ts : Prim) (hs : (hexDecode S).length = 32) :
    ∃ ev, makeLineageEvent h now S P L kind ts = .ok ev ∧
      ev.pubkey = .str (hexEncode (hexDecode P)) ∧
      (P.length % 2 = 0 → (∀ c ∈ P, isLowerHexDigit c = true) → ev.pubkey = .str P) := by
  refine ⟨_, makeLineageEvent_ok h hLaw now S P L kind ts hs, rfl, fun hlen hmem => ?_⟩
  simp only
  rw [hexEncode_hexDecode P hlen hmem]

/-- Witness of C15 (amended) -/
theorem makeLineageEvent_pubkey_witness :
    (hexDecode seedHex64).length = 32 ∧
    ∃ ev, makeLineageEvent toyHost 0 seedHex64 (js "ab") (.str labelQ1) (.num 30001) (.num 0)
        = .ok ev ∧
      ev.pubkey = .str (hexEncode (hexDecode (js "ab"))) ∧
      ((js "ab").length % 2 = 0 → (∀ c ∈ js "ab", isLowerHexDigit c = true) →
        ev.pubkey = .str (js "ab")) :=
  ⟨by decide, makeLineageEvent_pubkey toyHost toyHost_lawful 0 seedHex64 (js "ab")
    (.str labelQ1) (.num 30001) (.num 0) (by decide)⟩

/-- C16: when `createdAt` is a number (0 included) the outcome of `makeLineageEvent` is the
same whatever the clock shows and the event has `created_at = createdAt`; when
`createdAt` is `undefined` or `null` the event has `created_at = floor(now / 1000)` and
the event built at another time differs from it in `created_at` only. -/
theorem makeLineageEvent_clock (h : Host) (S P : JSString) (L kind : Prim) :
    (∀ (n : Int) (now1 now2 : Nat),
        makeLineageEvent h now1 S P L kind (.num n) = makeLineageEvent h now2 S P L kind (.num n)) ∧
    (∀ (n : Int) (now : Nat) (ev : EventObj),
        makeLineageEvent h now S P L kind (.num n) = .ok ev → ev.created_at = .num n) ∧
    (∀ (c : Prim), c = .undefined ∨ c = .null → ∀ (now : Nat) (ev : EventObj),
        makeLineageEvent h now S P L kind c = .ok ev →
        ev.created_at = .num (now / 1000) ∧
        ∀ now2 : Nat, makeLineageEvent h now2 S P L kind c
          = .ok { ev with created_at := .num (now2 / 1000) }) := by
  refine ⟨fun n now1 now2 => ?_, fun n now ev hev => ?_, fun c hc now ev hev => ?_⟩
  · unfold makeLineageEvent
    simp
  · unfold makeLineageEvent at hev
    cases hroot : rootKeyPairFromSeedHex h S with
    | error e => rw [hroot] at hev; cases hev
    | ok root =>
      rw [hroot] at hev
      cases hsig : naclSignDetached h (hexDecode P) root.secretKey with
      | error e => simp only [hsig] at hev; cases hev
      | ok sig =>
        simp only [hsig] at hev
        injection hev with hev
        rw [← hev]
        simp
  · have hcc : c = .null ∨ c = .undefined := hc.symm
    unfold makeLineageEvent at hev ⊢
    cases hroot : rootKeyPairFromSeedHex h S with
    | error e => rw [hroot] at hev; cases hev
    | ok root =>
      rw [hroot] at hev
      cases hsig : naclSignDetached h (hexDecode P) root.secretKey with
      | error e => simp only [hsig] at hev; cases hev
      | ok sig =>
        simp only [hsig, hcc, if_true] at hev ⊢
        injection hev with hev
        rw [← hev]
        exact ⟨rfl, fun now2 => rfl⟩

/-- Witness of C16 -/
theorem makeLineageEvent_clock_witness :
    (∃ ev, makeLineageEvent toyHost 1700000000999 seedHex64 (js "ab") (.str labelQ1)
        (.num 30001) (.num 0) = .ok ev ∧ ev.created_at = .num 0) ∧
    (∃ ev, makeLineageEvent toyHost 1700000000999 seedHex64 (js "ab") (.str labelQ1)
        (.num 30001) .undefined = .ok ev ∧ ev.created_at = .num (1700000000999 / 1000)) :=
  ⟨⟨_, makeLineageEvent_ok toyHost toyHost_lawful 1700000000999 seedHex64 (js "ab")
      (.str labelQ1) (.num 30001) (.num 0) (by decide),
    (makeLineageEvent_clock toyHost seedHex64 (js "ab") (.str labelQ1) (.num 30001)).2.1
      0 1700000000999 _
      (makeLineageEvent_ok toyHost toyHost_lawful 1700000000999 seedHex64 (js "ab")
        (.str labelQ1) (.num 30001) (.num 0) (by decide))⟩,
   ⟨_, makeLineageEvent_ok toyHost toyHost_lawful 1700000000999 seedHex64 (js "ab")
      (.str labelQ1) (.num 30001) .undefined (by decide),
    ((makeLineageEvent_clock toyHost seedHex64 (js "ab") (.str labelQ1) (.num 30001)).2.2
      .undefined (Or.inl rfl) 1700000000999 _
      (makeLineageEvent_ok toyHost toyHost_lawful 1700000000999 seedHex64 (js "ab")
        (.str labelQ1) (.num 30001) .undefined (by decide))).1⟩⟩

/-! ## Theorems: emitted strings -/

theorem hexDigit_lower (n : Nat) (hn : n < 16) : isLowerHexDigit (hexDigit n) = true := by
  simp only [isLowerHexDigit, hexDigit, decide_eq_true_eq]
  split_ifs <;> omega

/-- The hexadecimal form of a buffer consists of the characters `0-9`, `a-f`. -/
theorem hexEncode_lower (b : Bytes) (hb : ∀ x ∈ b, x < 256) :
    ∀ c ∈ hexEncode b, isLowerHexDigit c = true := by
  induction b with
  | nil => intro c hc; simp [hexEncode] at hc
  | cons x b ih =>
    intro c hc
    have hx : x < 256 := hb x (List.mem_cons_self x b)
    rw [hexEncode_cons] at hc
    rcases List.mem_cons.1 hc with rfl | hc
    · exact hexDigit_lower _ (by omega)
    · rcases List.mem_cons.1 hc with rfl | hc
      · exact hexDigit_lower _ (by omega)
      · exact ih (fun y hy => hb y (List.mem_cons_of_mem x hy)) c hc

/-- The bytes of the KDF output are bytes of digests. -/
theorem hkdfSpec_byte (hmac : Bytes → Bytes → Bytes)
    (hb : ∀ k d, ∀ b ∈ hmac k d, b < 256) (ikm salt info : Bytes) (length : Nat) :
    ∀ b ∈ hkdfSpec hmac ikm salt info length, b < 256 := by
  intro b hmem
  have hmem2 := List.mem_of_mem_take hmem
  rw [List.mem_flatten] at hmem2
  obtain ⟨block, hblock, hbin⟩ := hmem2
  rw [List.mem_map] at hblock
  obtain ⟨i, hi, rfl⟩ := hblock
  rw [List.mem_range'_1] at hi
  cases i with
  | zero => omega
  | succ j =>
    rw [specT] at hbin
    exact hb _ _ b hbin

/-- With lawful collaborators the KDF asked for 32 bytes returns 32 bytes below 256. -/
theorem hkdfSha256_32_bytes (h : Host) (hLaw : h.Lawful) (ikm salt info : Bytes) :
    ∃ okm, (hkdfSha256 h ikm salt info 32).result = .ok okm ∧ okm.length = 32 ∧
      ∀ b ∈ okm, b < 256 :=
  ⟨_, hkdfSha256_result h ikm salt info 32 (by decide) (by decide),
    hkdfSpec_length h.hmacSha256 hLaw.hmac_length ikm salt info 32,
    hkdfSpec_byte h.hmacSha256 hLaw.hmac_byte ikm salt info 32⟩

/-- C17: with lawful collaborators and a root seed of 32 bytes, `deriveEpochKey` returns
`skSeedHex` and `pkHex` of exactly 64 characters, and `makeLineageEvent` a `root` value
of exactly 64 and a `sig` value of exactly 128 characters, all of them among `0-9`,
`a-f`. -/
theorem emitted_hex_strings (h : Host) (hLaw : h.Lawful) (now : Nat) (S L P : JSString)
    (label kind ts : Prim) (hs : (hexDecode S).length = 32) :
    (∃ key, deriveEpochKey h S L = .ok key ∧
        key.skSeedHex.length = 64 ∧ (∀ c ∈ key.skSeedHex, isLowerHexDigit c = true) ∧
        key.pkHex.length = 64 ∧ (∀ c ∈ key.pkHex, isLowerHexDigit c = true)) ∧
    (∃ ev rootHex sigHex, makeLineageEvent h now S P label kind ts = .ok ev ∧
        ev.tags = .array [
          .array [.str (js "root"), .str rootHex],
          .array [.str (js "sig"), .str sigHex],
          .array [.str (js "epoch"), label]] ∧
        rootHex.length = 64 ∧ (∀ c ∈ rootHex, isLowerHexDigit c = true) ∧
        sigHex.length = 128 ∧ (∀ c ∈ sigHex, isLowerHexDigit c = true)) := by
  constructor
  · obtain ⟨childSeed, hk, hc, hbyte⟩ := hkdfSha256_32_bytes h hLaw (hexDecode S) HKDF_SALT
      (utf8Encode (js "epoch:") ++ utf8Encode L)
    refine ⟨_, deriveEpochKey_ok h S L childSeed hs hk hc, ?_, ?_, ?_, ?_⟩
    · simp only [hexEncode_length]
      rw [hc]
    · exact hexEncode_lower _ hbyte
    · simp only [hexEncode_length]
      rw [hLaw.pk_length _ hc]
    · exact hexEncode_lower _ (hLaw.pk_byte _)
  · refine ⟨_, _, _, makeLineageEvent_ok h hLaw now S P label kind ts hs, rfl, ?_, ?_, ?_, ?_⟩
    · rw [hexEncode_length, hLaw.pk_length _ hs]
    · exact hexEncode_lower _ (hLaw.pk_byte _)
    · rw [hexEncode_length, hLaw.sig_length]
    · exact hexEncode_lower _ (hLaw.sig_byte _ _)

/-- Witness of C17 -/
theorem emitted_hex_strings_witness :
    (hexDecode seedHex64).length = 32 ∧
    (∃ key, deriveEpochKey toyHost seedHex64 labelQ1 = .ok key ∧
        key.skSeedHex.length = 64 ∧ (∀ c ∈ key.skSeedHex, isLowerHexDigit c = true) ∧
        key.pkHex.length = 64 ∧ (∀ c ∈ key.pkHex, isLowerHexDigit c = true)) :=
  ⟨by decide, (emitted_hex_strings toyHost toyHost_lawful 0 seedHex64 labelQ1 (js "ab")
    (.str labelQ1) (.num 30001) (.num 0) (by decide)).1⟩

/-! ## Theorems: the label -/

/-- For an output of 32 bytes the KDF is one expand block: `HMAC(PRK, info ‖ 0x01)`. -/
theorem hkdfSpec_32 (hmac : Bytes → Bytes → Bytes) (hl : ∀ k d, (hmac k d).length = 32)
    (ikm salt info : Bytes) :
    hkdfSpec hmac ikm salt info 32 = hmac (hmac salt ikm) (info ++ [1]) := by
  have hb : specBlocks 32 = 1 := by rw [specBlocks_eq]
  simp only [hkdfSpec, hb]
  simp only [List.range'_one, List.map_cons, List.map_nil, List.flatten_cons,
    List.flatten_nil, List.append_nil, specT, List.nil_append]
  exact List.take_of_length_le (by rw [hl])

theorem hexEncode_injective (a b : Bytes) (ha : ∀ x ∈ a, x < 256) (hb : ∀ x ∈ b, x < 256)
    (he : hexEncode a = hexEncode b) : a = b := by
  rw [← hexDecode_hexEncode a ha, ← hexDecode_hexEncode b hb, he]

/-- The key `deriveEpochKey` returns, as a function of the UTF-8 bytes of the label. -/
theorem deriveEpochKey_formula (h : Host) (hLaw : h.Lawful) (S L : JSString)
    (hs : (hexDecode S).length = 32) :
    deriveEpochKey h S L = .ok
      { skSeedHex := hexEncode (h.hmacSha256 (h.hmacSha256 HKDF_SALT (hexDecode S))
          (utf8Encode (js "epoch:") ++ utf8Encode L ++ [1])),
        pkHex := hexEncode (h.signKeyPair (h.hmacSha256 (h.hmacSha256 HKDF_SALT (hexDecode S))
          (utf8Encode (js "epoch:") ++ utf8Encode L ++ [1]))).1,
        secretKey := (h.signKeyPair (h.hmacSha256 (h.hmacSha256 HKDF_SALT (hexDecode S))
          (utf8Encode (js "epoch:") ++ utf8Encode L ++ [1]))).2 } := by
  have hk := hkdfSha256_result h (hexDecode S) HKDF_SALT
    (utf8Encode (js "epoch:") ++ utf8Encode L) 32 (by decide) (by decide)
  rw [show (32 : Int).toNat = 32 from rfl, hkdfSpec_32 h.hmacSha256 hLaw.hmac_length] at hk
  exact deriveEpochKey_ok h S L _ hs hk (hLaw.hmac_length _ _)

/-- C18 (as stated, refuted): the labels made of the single unpaired surrogate `U+D800`
and of the single unpaired surrogate `U+D801` are different strings with the same
UTF-8 encoding (that of `U+FFFD`), and `deriveEpochKey` returns the same key for both,
whatever the collaborators are. -/
theorem label_collision :
    ([0xD800] : JSString) ≠ [0xD801] ∧
    utf8Encode [0xD800] = [0xEF, 0xBF, 0xBD] ∧ utf8Encode [0xD801] = [0xEF, 0xBF, 0xBD] ∧
    (∀ (h : Host) (S : JSString),
      deriveEpochKey h S [0xD800] = deriveEpochKey h S [0xD801]) ∧
    (∃ key, deriveEpochKey toyHost seedHex64 [0xD800] = .ok key ∧
      deriveEpochKey toyHost seedHex64 [0xD801] = .ok key) := by
  have hu : utf8Encode [0xD800] = utf8Encode [0xD801] := by decide
  have hall : ∀ (h : Host) (S : JSString),
      deriveEpochKey h S [0xD800] = deriveEpochKey h S [0xD801] := by
    intro h S
    unfold deriveEpochKey
    rw [hu]
  refine ⟨by decide, by decide, by decide, hall, ?_⟩
  have hk := deriveEpochKey_formula toyHost toyHost_lawful seedHex64 [0xD800] (by decide)
  exact ⟨_, hk, by rw [← hall, hk]⟩

/-- C18 (amended): for a root seed of 32 bytes and two labels, `deriveEpochKey` returns
`pkHex = hex(publicKey(HMAC(PRK, "epoch:" ‖ UTF8(L) ‖ 0x01)))` with
`PRK = HMAC(salt, seed)`; the two `pkHex` differ exactly when these two public keys
differ; labels with the same UTF-8 encoding get the same key, and labels with different
UTF-8 encodings give different inputs to the HMAC. -/
theorem label_sensitivity (h : Host) (hLaw : h.Lawful) (S L1 L2 : JSString)
    (hs : (hexDecode S).length = 32) :
    ∃ k1 k2, deriveEpochKey h S L1 = .ok k1 ∧ deriveEpochKey h S L2 = .ok k2 ∧
      k1.pkHex = hexEncode (h.signKeyPair (h.hmacSha256 (h.hmacSha256 HKDF_SALT (hexDecode S))
          (utf8Encode (js "epoch:") ++ utf8Encode L1 ++ [1]))).1 ∧
      k2.pkHex = hexEncode (h.signKeyPair (h.hmacSha256 (h.hmacSha256 HKDF_SALT (hexDecode S))
          (utf8Encode (js "epoch:") ++ utf8Encode L2 ++ [1]))).1 ∧
      (k1.pkHex ≠ k2.pkHex ↔
        (h.signKeyPair (h.hmacSha256 (h.hmacSha256 HKDF_SALT (hexDecode S))
          (utf8Encode (js "epoch:") ++ utf8Encode L1 ++ [1]))).1
        ≠ (h.signKeyPair (h.hmacSha256 (h.hmacSha256 HKDF_SALT (hexDecode S))
          (utf8Encode (js "epoch:") ++ utf8Encode L2 ++ [1]))).1) ∧
      (utf8Encode L1 = utf8Encode L2 → k1 = k2) ∧
      (utf8Encode L1 ≠ utf8Encode L2 →
        utf8Encode (js "epoch:") ++ utf8Encode L1 ++ [1]
          ≠ utf8Encode (js "epoch:") ++ utf8Encode L2 ++ [1]) := by
  refine ⟨_, _, deriveEpochKey_formula h hLaw S L1 hs, deriveEpochKey_formula h hLaw S L2 hs,
    rfl, rfl, ?_, ?_, ?_⟩
  · simp only
    constructor
    · intro hne he
      exact hne (by rw [he])
    · intro hne he
      exact hne (hexEncode_injective _ _ (hLaw.pk_byte _) (hLaw.pk_byte _) he)
  · intro hu
    rw [hu]
  · intro hne he
    apply hne
    have h2 := List.append_cancel_right he
    exact List.append_cancel_left h2

/-- Witness of C18 (amended) -/
theorem label_sensitivity_witness :
    (hexDecode seedHex64).length = 32 ∧
    ∃ k1 k2, deriveEpochKey toyHost seedHex64 labelQ1 = .ok k1 ∧
      deriveEpochKey toyHost seedHex64 (js "epoch-2025-Q2") = .ok k2 ∧
      k1.pkHex ≠ k2.pkHex := by
  refine ⟨by decide, ?_⟩
  obtain ⟨k1, k2, h1, h2, hp1, hp2, hiff, _, _⟩ :=
    label_sensitivity toyHost toyHost_lawful seedHex64 labelQ1 (js "epoch-2025-Q2") (by decide)
  exact ⟨k1, k2, h1, h2, hiff.2 (by decide)⟩

/-! ## Theorems: several tags of the same name -/

theorem tagValues_ne_nil_of_any (name : JSString) (ts : List Tag)
    (ha : ts.any (isTag name) = true) : tagValues name ts ≠ [] := by
  intro he
  have hl := tagValues_length name ts
  rw [he] at hl
  have hpos : 0 < ts.countP (isTag name) := by
    rw [List.countP_pos_iff]
    simpa using ha
  simp at hl
  omega

/-- Removing all but the last `name` tag leaves exactly the last value of `name`. -/
theorem tagValues_dropAllButLast_same (name : JSString) (ts : List Tag) :
    tagValues name (dropAllButLast (isTag name) ts) = (tagValues name ts).getLast?.toList := by
  induction ts with
  | nil => rfl
  | cons x xs ih =>
    rw [dropAllButLast]
    by_cases hx : isTag name x = true
    · by_cases ha : xs.any (isTag name) = true
      · rw [if_pos (by simp only [hx, ha, Bool.and_self])]
        rw [ih, tagValues_cons name x xs, List.getLast?_append]
        have hne := tagValues_ne_nil_of_any name xs ha
        cases hl : (tagValues name xs).getLast? with
        | none => exact absurd (List.getLast?_eq_none_iff.1 hl) hne
        | some v => rfl
      · rw [if_neg (by simp only [hx, ha, Bool.and_false]; exact Bool.false_ne_true)]
        have hnil : tagValues name xs = [] := by
          apply List.eq_nil_of_length_eq_zero
          rw [tagValues_length, List.countP_eq_zero]
          intro a hmem hq
          exact ha (List.any_eq_true.2 ⟨a, hmem, hq⟩)
        rw [tagValues_cons name x (dropAllButLast (isTag name) xs), ih,
          tagValues_cons name x xs, hnil]
        have hone := tagValues_single_length name x
        rw [hx] at hone
        simp only [if_true] at hone
        match hv : tagValues name [x], hone with
        | [v], _ => rfl
    · have hxf : isTag name x = false := by simpa using hx
      rw [if_neg (by simp only [hxf, Bool.false_and]; exact Bool.false_ne_true)]
      rw [tagValues_cons name x (dropAllButLast (isTag name) xs), ih,
        tagValues_cons name x xs, tagValues_single_nil name x hxf]
      rfl

/-- Removing tags of another name does not change the values of `name`. -/
theorem tagValues_dropAllButLast_other (name other : JSString) (hne : other ≠ name)
    (ts : List Tag) :
    tagValues name (dropAllButLast (isTag other) ts) = tagValues name ts := by
  have hdis : ∀ x, isTag other x = true → isTag name x = false := by
    intro x hx
    cases x with
    | notArray => rfl
    | array items =>
      simp only [isTag, decide_eq_true_eq] at hx
      simp only [isTag, decide_eq_false_iff_not]
      intro hn
      rw [hx.2] at hn
      exact hne (Prim.str.inj hn.2)
  induction ts with
  | nil => rfl
  | cons x xs ih =>
    rw [dropAllButLast]
    by_cases hc : (isTag other x && xs.any (isTag other)) = true
    · rw [if_pos hc, ih, tagValues_cons name x xs]
      have hx : isTag other x = true := by
        simp only [Bool.and_eq_true] at hc
        exact hc.1
      rw [tagValues_single_nil name x (hdis x hx)]
      rfl
    · rw [if_neg hc, tagValues_cons name x (dropAllButLast (isTag other) xs), ih,
        ← tagValues_cons]

theorem toList_length_le_one (v : Option Prim) : v.toList.length ≤ 1 := by
  cases v <;> simp

theorem getLast_toList (l : List Prim) : (l.getLast?.toList).getLast? = l.getLast? := by
  cases l.getLast? <;> rfl

/-- C19: the loop of `extractLineageTags` keeps the value of the last `root` tag and of
the last `sig` tag; the run of `verifyLineage` on an event is the run on the same event
with all but the last `root` tag and all but the last `sig` tag removed (after which at
most one of each is left); and appending a second `root` tag, or a second `sig` tag, to
an accepted event changes the verdict from `true` to `false`. -/
theorem verifyLineage_last_tag_wins (h : Host) (R : JSString) (o : EventObj) (ts : List Tag) :
    (∃ t, extractLineageTags { o with tags := .array ts } = .ok t ∧
      t.rootHex = ((tagValues (js "root") ts).getLast?).getD .null ∧
      t.sigHex = ((tagValues (js "sig") ts).getLast?).getD .null) ∧
    verifyLineage h R (.object { o with tags := .array (pruneTags ts) })
      = verifyLineage h R (.object { o with tags := .array ts }) ∧
    (pruneTags ts).countP (isTag (js "root")) ≤ 1 ∧
    (pruneTags ts).countP (isTag (js "sig")) ≤ 1 ∧
    (verifyLineage toyHost toyRootHex
        (.object (lineageEvent (.str (js "ab")) (.str toyRootHex) (.str toySigHex)))).result
      = .ok true ∧
    (verifyLineage toyHost toyRootHex
        (.object { lineageEvent (.str (js "ab")) (.str toyRootHex) (.str toySigHex) with
          tags := .array [
            .array [.str (js "root"), .str toyRootHex],
            .array [.str (js "sig"), .str toySigHex],
            .array [.str (js "epoch"), .str labelQ1],
            .array [.str (js "root"), .str (js "00")]] })).result = .ok false ∧
    (verifyLineage toyHost toyRootHex
        (.object { lineageEvent (.str (js "ab")) (.str toyRootHex) (.str toySigHex) with
          tags := .array [
            .array [.str (js "root"), .str toyRootHex],
            .array [.str (js "sig"), .str toySigHex],
            .array [.str (js "epoch"), .str labelQ1],
            .array [.str (js "sig"), .str zeroSigHex]] })).result = .ok false := by
  have hrs : js "sig" ≠ js "root" := by decide
  have hsr : js "root" ≠ js "sig" := by decide
  have hroot : tagValues (js "root") (pruneTags ts)
      = (tagValues (js "root") ts).getLast?.toList := by
    unfold pruneTags
    rw [tagValues_dropAllButLast_same, tagValues_dropAllButLast_other _ _ hrs]
  have hsig : tagValues (js "sig") (pruneTags ts)
      = (tagValues (js "sig") ts).getLast?.toList := by
    unfold pruneTags
    rw [tagValues_dropAllButLast_other _ _ hsr, tagValues_dropAllButLast_same]
  refine ⟨extract_last _ ts rfl, ?_, ?_, ?_, by decide, by decide, by decide⟩
  · exact verifyLineage_of_values h R _ _ ts (pruneTags ts) rfl rfl
      (by rw [hroot, getLast_toList]) (by rw [hsig, getLast_toList]) rfl
  · rw [← tagValues_length, hroot]
    exact toList_length_le_one _
  · rw [← tagValues_length, hsig]
    exact toList_length_le_one _

/-! ## Theorems: prefixes of the KDF output -/

/-- The blocks for a smaller count are the first blocks for a larger count. -/
theorem blocks_append (hmac : Bytes → Bytes → Bytes) (prk info : Bytes) (n m : Nat) :
    ((List.range' 1 (n + m)).map (specT hmac prk info)).flatten
      = ((List.range' 1 n).map (specT hmac prk info)).flatten
        ++ ((List.range' (1 + n) m).map (specT hmac prk info)).flatten := by
  have e : List.range' 1 (n + m) = List.range' 1 n ++ List.range' (1 + n) m := by
    rw [List.range'_append_1]
    congr 1
    omega
  rw [e, List.map_append, List.flatten_append]

/-- Prefix consistency of the output the specification defines. -/
theorem hkdfSpec_take (hmac : Bytes → Bytes → Bytes) (hl : ∀ k d, (hmac k d).length = 32)
    (ikm salt info : Bytes) (l1 l2 : Nat) (h12 : l1 ≤ l2) :
    hkdfSpec hmac ikm salt info l1 = (hkdfSpec hmac ikm salt info l2).take l1 := by
  have hn : specBlocks l1 ≤ specBlocks l2 := by
    rw [specBlocks_eq, specBlocks_eq]
    omega
  obtain ⟨m, hm⟩ := Nat.exists_eq_add_of_le hn
  simp only [hkdfSpec]
  rw [List.take_take, Nat.min_eq_left h12, hm, blocks_append]
  rw [List.take_append_of_le_length]
  rw [blocks_length hmac hl, specBlocks_eq]
  omega

/-- C20: for a 32-byte digest and 0 ≤ L1 ≤ L2 ≤ 8160 both calls of `hkdfSha256` return an
output, and the output for `L1` is the first `L1` bytes of the output for `L2`. -/
theorem hkdfSha256_prefix (h : Host) (hl : ∀ k d, (h.hmacSha256 k d).length = 32)
    (ikm salt info : Bytes) (L1 L2 : Int) (h0 : 0 ≤ L1) (h12 : L1 ≤ L2) (h2 : L2 ≤ 8160) :
    ∃ okm1 okm2, (hkdfSha256 h ikm salt info L1).result = .ok okm1 ∧
      (hkdfSha256 h ikm salt info L2).result = .ok okm2 ∧
      okm1 = okm2.take L1.toNat :=
  ⟨_, _, hkdfSha256_result h ikm salt info L1 h0 (by omega),
    hkdfSha256_result h ikm salt info L2 (by omega) (by omega),
    hkdfSpec_take h.hmacSha256 hl ikm salt info L1.toNat L2.toNat (by omega)⟩

/-- Witness of C20 -/
theorem hkdfSha256_prefix_witness :
    ∃ okm1 okm2, (hkdfSha256 toyHost [1] [2] [3] 33).result = .ok okm1 ∧
      (hkdfSha256 toyHost [1] [2] [3] 70).result = .ok okm2 ∧
      okm1 = okm2.take (33 : Int).toNat :=
  hkdfSha256_prefix toyHost toyDigest_length [1] [2] [3] 33 70 (by decide) (by decide)
    (by decide)

/-! ## Checks of the embedding against documented behaviour of the runtime -/

theorem ceilDiv_examples : ceilDiv 33 32 = 2 ∧ ceilDiv 32 32 = 1 ∧ ceilDiv 0 32 = 0 ∧
    ceilDiv (-5) 32 = 0 := by
  decide

theorem js_root : js "root" = [114, 111, 111, 116] := by
  decide

theorem hexDecode_stops_at_non_hex : hexDecode (js "1ag123") = [0x1a] := by
  decide

theorem hexDecode_drops_odd_character : hexDecode (js "1a7") = [0x1a] := by
  decide

theorem hexDecode_low_byte_only :
    hexDecode [0x141, 0x142] = [0xab] ∧ hexDecode [0x161, 0x62] = [0xab] ∧
      hexDecode (seedHex64 ++ [0x130, 0x130]) = hexDecode seedHex64 ++ [0] ∧
      hexDecode (0x130 :: seedHex64.drop 1) = hexDecode seedHex64 := by
  refine ⟨?_, ?_, ?_, ?_⟩ <;> decide

theorem hexEncode_lowercase : hexEncode [0x1a, 0xff, 0] = js "1aff00" := by
  decide

theorem utf8Encode_lone_surrogate : utf8Encode [0xD800] = [0xEF, 0xBF, 0xBD] := by
  decide

theorem utf8Encode_surrogate_pair :
    utf8Encode [0xD83D, 0xDE00] = [0xF0, 0x9F, 0x98, 0x80] := by
  decide

end ColdRoot
